import Mathlib

/-
Verification development for the tuple update engine
(src/box/update/update_field.c, src/box/tuple.c).

The development is a shallow embedding: MessagePack data is modelled at
the value level (inductive MpVal), byte sequences as lists of naturals
(each < 256), machine integers as Nat / Int with explicit range checks,
and fallible C functions as Except-valued Lean functions.  Each Lean
definition is translated from the C function of the same name unless its
doc comment says it is modelled from the specification (used only for
repository code that is not part of the analysed sources, such as the
int96 accumulator library and the json path lexer).

IEEE floating point is not modelled: double and float values are carried
as opaque 64/32-bit patterns (naturals), and the floating point
primitives (addition, subtraction, conversions) are parameters collected
in the FpOps structure.  All theorems touching them hold for every
choice of those primitives.
-/

/- {{{ MessagePack value model -/

mutual

/-- A decoded MessagePack value.  Strings carry their byte payload,
double and float carry their raw bit pattern. -/
inductive MpVal where
  | nil
  | boolean (b : Bool)
  | uint (n : Nat)
  | int (i : Int)
  | flt (bits : Nat)
  | dbl (bits : Nat)
  | str (s : List Nat)
  | arr (elems : MpList)
  | map (kvs : MpMap)

/-- A list of MessagePack values (array elements).  A separate mutual
inductive is used instead of List MpVal so that structural recursion
over nested values is available. -/
inductive MpList where
  | nil
  | cons (hd : MpVal) (tl : MpList)

/-- A list of MessagePack key/value pairs (map entries). -/
inductive MpMap where
  | nil
  | cons (k : MpVal) (v : MpVal) (tl : MpMap)

end

/-- Number of elements of an MpList. -/
def MpList.length : MpList → Nat
  | .nil => 0
  | .cons _ tl => 1 + tl.length

/-- Number of entries of an MpMap. -/
def MpMap.length : MpMap → Nat
  | .nil => 0
  | .cons _ _ tl => 1 + tl.length

/-- Convert an ordinary list to an MpList. -/
def MpList.ofList : List MpVal → MpList
  | [] => .nil
  | x :: xs => .cons x (MpList.ofList xs)

/-- Convert an MpList to an ordinary list. -/
def MpList.toList : MpList → List MpVal
  | .nil => []
  | .cons x xs => x :: xs.toList

/-- Bytes of a string literal (ASCII code points), used to build
concrete examples. -/
def strBytes (s : String) : List Nat :=
  s.data.map Char.toNat

/- }}} -/

/- {{{ MessagePack byte-level encoders (msgpuck library model).

The engine links against the msgpuck library (not part of the analysed
sources); the encoders below implement the canonical (smallest)
MessagePack encodings that mp_encode_* / mp_sizeof_* produce, following
the MessagePack format the spec's binary cursor component describes. -/

/-- Big-endian bytes of a natural number, exactly k bytes. -/
def beBytes : Nat → Nat → List Nat
  | 0, _ => []
  | k + 1, n => beBytes k (n / 256) ++ [n % 256]

/-- Size in bytes of the MessagePack encoding of an unsigned integer
(mp_sizeof_uint). -/
def mp_sizeof_uint (n : Nat) : Nat :=
  if n ≤ 0x7f then 1
  else if n < 2 ^ 8 then 2
  else if n < 2 ^ 16 then 3
  else if n < 2 ^ 32 then 5
  else 9

/-- MessagePack encoding of an unsigned integer (mp_encode_uint). -/
def mp_encode_uint (n : Nat) : List Nat :=
  if n ≤ 0x7f then [n]
  else if n < 2 ^ 8 then [0xcc, n]
  else if n < 2 ^ 16 then 0xcd :: beBytes 2 n
  else if n < 2 ^ 32 then 0xce :: beBytes 4 n
  else 0xcf :: beBytes 8 n

/-- Size in bytes of the MessagePack encoding of a signed (negative)
integer (mp_sizeof_int). -/
def mp_sizeof_int (i : Int) : Nat :=
  if -32 ≤ i then 1
  else if -(2 ^ 7) ≤ i then 2
  else if -(2 ^ 15) ≤ i then 3
  else if -(2 ^ 31) ≤ i then 5
  else 9

/-- MessagePack encoding of a signed (negative) integer
(mp_encode_int); two's complement big endian. -/
def mp_encode_int (i : Int) : List Nat :=
  if -32 ≤ i then [(i + 2 ^ 8).toNat % 2 ^ 8]
  else if -(2 ^ 7) ≤ i then [0xd0, (i + 2 ^ 8).toNat % 2 ^ 8]
  else if -(2 ^ 15) ≤ i then 0xd1 :: beBytes 2 (i + 2 ^ 16).toNat
  else if -(2 ^ 31) ≤ i then 0xd2 :: beBytes 4 (i + 2 ^ 32).toNat
  else 0xd3 :: beBytes 8 (i + 2 ^ 64).toNat

/-- Size in bytes of the MessagePack header of a string of the given
payload length (the header part of mp_sizeof_str). -/
def mp_sizeof_strl (len : Nat) : Nat :=
  if len ≤ 31 then 1
  else if len < 2 ^ 8 then 2
  else if len < 2 ^ 16 then 3
  else 5

/-- Total size in bytes of the MessagePack encoding of a string of the
given payload length (mp_sizeof_str). -/
def mp_sizeof_str (len : Nat) : Nat :=
  mp_sizeof_strl len + len

/-- MessagePack string header for the given payload length
(mp_encode_strl). -/
def mp_encode_strl (len : Nat) : List Nat :=
  if len ≤ 31 then [0xa0 + len]
  else if len < 2 ^ 8 then [0xd9, len]
  else if len < 2 ^ 16 then 0xda :: beBytes 2 len
  else 0xdb :: beBytes 4 len

/-- MessagePack encoding of a string value (mp_encode_str): header
followed by the payload bytes. -/
def mp_encode_str (s : List Nat) : List Nat :=
  mp_encode_strl s.length ++ s

/-- Parse a MessagePack string header (mp_decode_strl): return the
declared payload length and the remaining bytes. -/
def mp_decode_strl : List Nat → Option (Nat × List Nat)
  | b :: rest =>
    if 0xa0 ≤ b ∧ b < 0xc0 then some (b - 0xa0, rest)
    else if b = 0xd9 then
      match rest with
      | l :: rest2 => some (l, rest2)
      | _ => none
    else if b = 0xda then
      match rest with
      | h :: l :: rest2 => some (h * 256 + l, rest2)
      | _ => none
    else if b = 0xdb then
      match rest with
      | b3 :: b2 :: b1 :: b0 :: rest2 =>
        some (((b3 * 256 + b2) * 256 + b1) * 256 + b0, rest2)
      | _ => none
    else none
  | [] => none

/-- Size in bytes of a MessagePack array header (mp_sizeof_array). -/
def mp_sizeof_array (n : Nat) : Nat :=
  if n ≤ 15 then 1
  else if n < 2 ^ 16 then 3
  else 5

/-- MessagePack array header (mp_encode_array). -/
def mp_encode_array (n : Nat) : List Nat :=
  if n ≤ 15 then [0x90 + n]
  else if n < 2 ^ 16 then 0xdc :: beBytes 2 n
  else 0xdd :: beBytes 4 n

/-- Size in bytes of a MessagePack map header (mp_sizeof_map). -/
def mp_sizeof_map (n : Nat) : Nat :=
  if n ≤ 15 then 1
  else if n < 2 ^ 16 then 3
  else 5

/-- MessagePack map header (mp_encode_map). -/
def mp_encode_map (n : Nat) : List Nat :=
  if n ≤ 15 then [0x80 + n]
  else if n < 2 ^ 16 then 0xde :: beBytes 2 n
  else 0xdf :: beBytes 4 n

mutual

/-- MessagePack encoding of a value (canonical, as produced by the
msgpuck encoders the engine uses). -/
def mp_encode : MpVal → List Nat
  | .nil => [0xc0]
  | .boolean b => [if b then 0xc3 else 0xc2]
  | .uint n => mp_encode_uint n
  | .int i => mp_encode_int i
  | .flt bits => 0xca :: beBytes 4 bits
  | .dbl bits => 0xcb :: beBytes 8 bits
  | .str s => mp_encode_str s
  | .arr elems => mp_encode_array elems.length ++ mp_encode_elems elems
  | .map kvs => mp_encode_map kvs.length ++ mp_encode_kvs kvs

/-- Concatenated encodings of array elements. -/
def mp_encode_elems : MpList → List Nat
  | .nil => []
  | .cons x xs => mp_encode x ++ mp_encode_elems xs

/-- Concatenated encodings of map entries. -/
def mp_encode_kvs : MpMap → List Nat
  | .nil => []
  | .cons k v xs => mp_encode k ++ mp_encode v ++ mp_encode_kvs xs

end

/-- First byte of the MessagePack encoding of a value. -/
def mp_first_byte (v : MpVal) : Nat :=
  (mp_encode v).headD 0

/- }}} -/

/- {{{ int96 accumulator.

Modelled from the spec: the 96-bit signed accumulator library
(src/lib/bit/int96.h) is not among the analysed sources.  Per the spec,
integer addition and subtraction use a 96-bit signed accumulator so that
two 64-bit operands never overflow intermediately; the accumulator is
modelled as an integer reduced into the signed 96-bit range. -/

/-- Reduce an integer into the signed 96-bit range (two's complement
wrap-around of the accumulator). -/
def wrap96 (x : Int) : Int :=
  (x + 2 ^ 95) % 2 ^ 96 - 2 ^ 95

/-- int96_add: accumulator addition (wrapping at 96 bits). -/
def int96_add (a b : Int) : Int :=
  wrap96 (a + b)

/-- int96_invert: accumulator negation (wrapping at 96 bits). -/
def int96_invert (a : Int) : Int :=
  wrap96 (-a)

/-- int96_is_uint64: the accumulator value fits an unsigned 64-bit
integer. -/
def int96_is_uint64 (a : Int) : Bool :=
  decide (0 ≤ a) && decide (a < 2 ^ 64)

/-- int96_is_neg_int64: the accumulator value is a negative value
fitting a signed 64-bit integer. -/
def int96_is_neg_int64 (a : Int) : Bool :=
  decide (-(2 ^ 63) ≤ a) && decide (a < 0)

/- }}} -/

/- {{{ Errors (box/error ClientError codes raised by the engine). -/

/-- Typed errors the update engine raises (diag_set ClientError codes in
the sources).  The UpdateArgType error also formats a field number in C;
during operand decoding that number comes from a not yet initialized
union member, so it is not modelled. -/
inductive Err where
  | illegalParams (msg : String)
  | unknownUpdateOp
  | noSuchFieldNo (field_no : Int)
  | noSuchFieldName (name : List Nat)
  | updateArgType (opcode : Nat) (expected : String)
  | updateIntegerOverflow (opcode : Nat) (field_no : Int)
  | spliceError (field_no : Int) (msg : String)

/-- Whether an error is an IllegalParams error. -/
def Err.isIllegalParams : Err → Bool
  | .illegalParams _ => true
  | _ => false

/-- Whether an error is the UnknownUpdateOp error. -/
def Err.isUnknownUpdateOp : Err → Bool
  | .unknownUpdateOp => true
  | _ => false

/- }}} -/

/- {{{ Arithmetic argument (struct op_arith_arg) and kernel. -/

/-- Floating point primitives, kept abstract: IEEE double and float
values are carried as raw 64/32-bit patterns and these operations stand
for the C double arithmetic and conversions.  Every theorem below holds
for every choice of them. -/
structure FpOps where
  dadd : Nat → Nat → Nat
  dsub : Nat → Nat → Nat
  of_uint64 : Nat → Nat
  of_neg_int64 : Int → Nat
  flt_to_dbl : Nat → Nat
  dbl_to_flt : Nat → Nat

/-- A trivial instantiation of the floating point primitives, used only
to instantiate universally quantified theorems on concrete inputs. -/
def fpZero : FpOps :=
  ⟨fun _ _ => 0, fun _ _ => 0, fun _ => 0, fun _ => 0, fun _ => 0, fun _ => 0⟩

/-- Argument (left and right) and result of ADD, SUBTRACT
(struct op_arith_arg).  The C struct is a tagged union over enum
arith_type; the AT_DECIMAL variant is omitted because no code path in
the analysed sources produces it (mp_read_arith_arg decodes only MP_UINT,
MP_INT, MP_DOUBLE and MP_FLOAT). -/
inductive OpArithArg where
  | int (i96 : Int)
  | dbl (bits : Nat)
  | flt (bits : Nat)

/-- Numeric code of enum arith_type (AT_DECIMAL = 0, AT_DOUBLE = 1,
AT_FLOAT = 2, AT_INT = 3). -/
def OpArithArg.typeCode : OpArithArg → Nat
  | .int _ => 3
  | .dbl _ => 1
  | .flt _ => 2

/-- cast_arith_arg_to_double: view an arithmetic argument as a double
bit pattern (the integer cases convert through the abstract
conversions). -/
def cast_arith_arg_to_double (fp : FpOps) : OpArithArg → Nat
  | .dbl bits => bits
  | .flt bits => fp.flt_to_dbl bits
  | .int v =>
    if int96_is_uint64 v then fp.of_uint64 v.toNat
    else fp.of_neg_int64 v

/-- update_arith_sizeof: MessagePack size of an arithmetic operation
result. -/
def update_arith_sizeof : OpArithArg → Nat
  | .int v =>
    if int96_is_uint64 v then mp_sizeof_uint v.toNat
    else mp_sizeof_int v
  | .dbl _ => 9
  | .flt _ => 5

/-- store_op_arith: MessagePack bytes of an arithmetic operation
result (mp_sizeof_double = 9 and mp_sizeof_float = 5 are the fixed
encoded sizes). -/
def store_op_arith : OpArithArg → List Nat
  | .int v =>
    if int96_is_uint64 v then mp_encode_uint v.toNat
    else mp_encode_int v
  | .dbl bits => 0xcb :: beBytes 8 bits
  | .flt bits => 0xca :: beBytes 4 bits

/-- make_arith_operation: perform opcode (the byte of the characters +
or -) on the two arguments.  lowest_type is the smaller enum arith_type
code of the two operands; since AT_INT has the largest code, the integer
branch is taken exactly when both operands are integers. -/
def make_arith_operation (fp : FpOps) (arg1 arg2 : OpArithArg)
    (opcode : Nat) (err_fieldno : Int) : Except Err OpArithArg :=
  let lowest_type :=
    if arg1.typeCode > arg2.typeCode then arg2.typeCode else arg1.typeCode
  if lowest_type = 3 then
    match arg1, arg2 with
    | .int x, .int y =>
      let res :=
        if opcode = '+'.toNat then int96_add x y
        else int96_add x (int96_invert y)
      if ¬ int96_is_uint64 res ∧ ¬ int96_is_neg_int64 res then
        .error (.updateIntegerOverflow opcode err_fieldno)
      else
        .ok (.int res)
    | _, _ =>
      -- unreachable: lowest_type = AT_INT forces both operands to be
      -- integers
      .error .unknownUpdateOp
  else
    -- At least one of operands is double or float.
    let a := cast_arith_arg_to_double fp arg1
    let b := cast_arith_arg_to_double fp arg2
    if opcode = '+'.toNat then
      if lowest_type = 1 then .ok (.dbl (fp.dadd a b))
      else .ok (.flt (fp.dbl_to_flt (fp.dadd a b)))
    else if opcode = '-'.toNat then
      if lowest_type = 1 then .ok (.dbl (fp.dsub a b))
      else .ok (.flt (fp.dbl_to_flt (fp.dsub a b)))
    else
      .error (.updateArgType opcode "a positive integer")

/-- Convert an arithmetic result back to a MessagePack value, with the
classification store_op_arith uses: unsigned when the accumulator value
fits uint64, signed otherwise. -/
def arith_arg_to_mp : OpArithArg → MpVal
  | .int v => if int96_is_uint64 v then .uint v.toNat else .int v
  | .dbl bits => .dbl bits
  | .flt bits => .flt bits

/- }}} -/

/- {{{ Operand readers (read_arg helpers in update_field.c). -/

/-- mp_read_i32: read a field index or any other integer that must fit
a signed 32-bit integer (mp_read_int32 of msgpuck succeeds exactly on
integers in the signed 32-bit range). -/
def mp_read_i32 (opcode : Nat) (v : MpVal) : Except Err Int :=
  match v with
  | .uint n => if n < 2 ^ 31 then .ok n else .error (.updateArgType opcode "an integer")
  | .int i =>
    if -(2 ^ 31) ≤ i ∧ i < 2 ^ 31 then .ok i
    else .error (.updateArgType opcode "an integer")
  | _ => .error (.updateArgType opcode "an integer")

/-- mp_read_uint: read an unsigned 64-bit operand. -/
def mp_read_uint (opcode : Nat) (v : MpVal) : Except Err Nat :=
  match v with
  | .uint n => .ok n
  | _ => .error (.updateArgType opcode "a positive integer")

/-- mp_read_arith_arg: classify an arithmetic operand. -/
def mp_read_arith_arg (opcode : Nat) (v : MpVal) : Except Err OpArithArg :=
  match v with
  | .uint n => .ok (.int n)
  | .int i => .ok (.int i)
  | .dbl bits => .ok (.dbl bits)
  | .flt bits => .ok (.flt bits)
  | _ => .error (.updateArgType opcode "a number")

/-- mp_read_str: read a string operand (its byte payload). -/
def mp_read_str (opcode : Nat) (v : MpVal) : Except Err (List Nat) :=
  match v with
  | .str s => .ok s
  | _ => .error (.updateArgType opcode "a string")

/- }}} -/

/- {{{ Splice (struct op_splice_arg, update_op_do_splice,
store_op_splice). -/

/-- Argument of SPLICE (struct op_splice_arg).  tail_offset and
tail_length are filled by update_op_do_splice; the decoder leaves them
uninitialized in C, modelled as 0. -/
structure SpliceArg where
  offset : Int
  cut_length : Int
  paste : List Nat
  tail_offset : Int
  tail_length : Int

/-- update_op_do_splice: resolve a splice against the old field value;
returns the resolved argument and the new field length (new_field_len).
str_len is the payload byte length of the old string. -/
def update_op_do_splice (opcode : Nat) (field_no : Int) (index_base : Int)
    (arg : SpliceArg) (old : MpVal) : Except Err (SpliceArg × Nat) :=
  match mp_read_str opcode old with
  | .error e => .error e
  | .ok s =>
    let str_len : Int := s.length
    let offRes : Except Err Int :=
      if arg.offset < 0 then
        if -arg.offset > str_len + 1 then
          .error (.spliceError (index_base + field_no) "offset is out of bound")
        else
          .ok (arg.offset + str_len + 1)
      else if arg.offset - index_base ≥ 0 then
        let o := arg.offset - index_base
        .ok (if o > str_len then str_len else o)
      else
        .error (.spliceError (index_base + field_no) "offset is out of bound")
    match offRes with
    | .error e => .error e
    | .ok offset =>
      let cut_length :=
        if arg.cut_length < 0 then
          if -arg.cut_length > str_len - offset then 0
          else arg.cut_length + (str_len - offset)
        else if arg.cut_length > str_len - offset then str_len - offset
        else arg.cut_length
      let tail_offset := offset + cut_length
      let tail_length := str_len - tail_offset
      let res : SpliceArg :=
        { offset := offset, cut_length := cut_length, paste := arg.paste,
          tail_offset := tail_offset, tail_length := tail_length }
      .ok (res, mp_sizeof_str (offset + arg.paste.length + tail_length).toNat)

/-- store_op_splice: write the new string given the resolved splice
argument and the payload of the old string (the C code skips the old
header with mp_decode_strl and copies head, paste and tail). -/
def store_op_splice (arg : SpliceArg) (s : List Nat) : List Nat :=
  let new_str_len := (arg.offset + arg.paste.length + arg.tail_length).toNat
  mp_encode_strl new_str_len ++
    (s.take arg.offset.toNat ++ arg.paste ++
      (s.drop arg.tail_offset.toNat).take arg.tail_length.toNat)

/- }}} -/

/- {{{ Operation metadata and decoding (update_op_by,
update_op_decode). -/

/-- Kind of an update operation (selects the read_arg / do_op /
store_op virtual functions of struct update_op_meta). -/
inductive OpKind where
  | set
  | insert
  | delete
  | arith
  | bit
  | splice

/-- struct update_op_meta: operation kind plus required element count
of the operation array. -/
structure UpdateOpMeta where
  kind : OpKind
  arg_count : Nat

/-- op_set meta. -/
def op_set : UpdateOpMeta := ⟨.set, 3⟩

/-- op_insert meta. -/
def op_insert : UpdateOpMeta := ⟨.insert, 3⟩

/-- op_arith meta. -/
def op_arith : UpdateOpMeta := ⟨.arith, 3⟩

/-- op_bit meta. -/
def op_bit : UpdateOpMeta := ⟨.bit, 3⟩

/-- op_splice meta. -/
def op_splice : UpdateOpMeta := ⟨.splice, 5⟩

/-- op_delete meta. -/
def op_delete : UpdateOpMeta := ⟨.delete, 3⟩

/-- update_op_by: look an operation up by its opcode byte; unknown
opcodes yield no meta (the C function sets ER_UNKNOWN_UPDATE_OP). -/
def update_op_by (opcode : Nat) : Option UpdateOpMeta :=
  if opcode = '='.toNat then some op_set
  else if opcode = '+'.toNat ∨ opcode = '-'.toNat then some op_arith
  else if opcode = '&'.toNat ∨ opcode = '|'.toNat ∨ opcode = '^'.toNat then some op_bit
  else if opcode = ':'.toNat then some op_splice
  else if opcode = '#'.toNat then some op_delete
  else if opcode = '!'.toNat then some op_insert
  else none

/-- Decoded argument of an update operation (union update_op_arg).  A
set or insert argument is the raw value slice, modelled as the value
itself. -/
inductive UpdateOpArg where
  | set (value : MpVal)
  | del (count : Nat)
  | arith (a : OpArithArg)
  | bit (val : Nat)
  | splice (a : SpliceArg)

/-- A decoded update operation (struct update_op after
update_op_decode). -/
structure UpdateOp where
  opcode : Nat
  kind : OpKind
  field_no : Int
  arg : UpdateOpArg

/-- read_arg_delete: a delete count must be MP_UINT; the C code
truncates the decoded 64-bit value to 32 bits. -/
def read_arg_delete (opcode : Nat) (v : MpVal) : Except Err UpdateOpArg :=
  match v with
  | .uint n => .ok (.del (n % 2 ^ 32))
  | _ => .error (.updateArgType opcode "a number of fields to delete")

/-- read_arg_splice: a splice takes a 32-bit offset, a 32-bit cut
length, and a paste string; tail fields are left for
update_op_do_splice (0 here, uninitialized in C). -/
def read_arg_splice (opcode : Nat) (voff vcut vpaste : MpVal) :
    Except Err UpdateOpArg :=
  match mp_read_i32 opcode voff with
  | .error e => .error e
  | .ok offset =>
    match mp_read_i32 opcode vcut with
    | .error e => .error e
    | .ok cut =>
      match mp_read_str opcode vpaste with
      | .error e => .error e
      | .ok paste => .ok (.splice ⟨offset, cut, paste, 0, 0⟩)

/-- The opcode byte of an operation: the C code dereferences the first
byte of the opcode string; for an empty opcode string that reads the
byte just after it in the buffer, which is the first byte of the
encoded target element (or an arbitrary byte, modelled 0, when the
operation array has a single element). -/
def update_op_first_char (s : List Nat) (rest : MpList) : Nat :=
  match s with
  | c :: _ => c
  | [] =>
    match rest with
    | .cons tgt _ => mp_first_byte tgt
    | .nil => 0

/-- Decode the target element of an operation (the switch on
mp_typeof in update_op_decode): an integer target is adjusted by
index_base or kept negative, a string target is resolved through the
tuple dictionary. -/
def update_op_decode_target (index_base : Int) (dict : List Nat → Option Nat)
    (opcode : Nat) (tgt : MpVal) : Except Err Int :=
  match tgt with
  | .uint _ | .int _ =>
    match mp_read_i32 opcode tgt with
    | .error e => .error e
    | .ok field_no =>
      if field_no - index_base ≥ 0 then .ok (field_no - index_base)
      else if field_no < 0 then .ok field_no
      else .error (.noSuchFieldNo field_no)
  | .str path =>
    match dict path with
    | some field_no => .ok field_no
    | none => .error (.noSuchFieldName path)
  | _ => .error (.illegalParams "field id must be a number or a string")

/-- update_op_decode: decode one update operation from its MessagePack
encoding.  Mirrors the C control flow: array check, emptiness check,
opcode string check, opcode lookup, element count check, target
decoding, then the opcode-specific argument reader. -/
def update_op_decode (index_base : Int) (dict : List Nat → Option Nat)
    (expr : MpVal) : Except Err UpdateOp :=
  match expr with
  | .arr elems =>
    match elems with
    | .nil => .error (.illegalParams
        "update operation must be an array {op,..}, got empty array")
    | .cons e0 rest =>
      match e0 with
      | .str s =>
        let opcode := update_op_first_char s rest
        match update_op_by opcode with
        | none => .error .unknownUpdateOp
        | some meta =>
          if elems.length ≠ meta.arg_count then .error .unknownUpdateOp
          else
            match rest with
            | .cons tgt args =>
              match update_op_decode_target index_base dict opcode tgt with
              | .error e => .error e
              | .ok field_no =>
                match meta.kind, args with
                | .set, .cons a1 .nil =>
                  .ok ⟨opcode, .set, field_no, .set a1⟩
                | .insert, .cons a1 .nil =>
                  .ok ⟨opcode, .insert, field_no, .set a1⟩
                | .delete, .cons a1 .nil =>
                  match read_arg_delete opcode a1 with
                  | .error e => .error e
                  | .ok arg => .ok ⟨opcode, .delete, field_no, arg⟩
                | .arith, .cons a1 .nil =>
                  match mp_read_arith_arg opcode a1 with
                  | .error e => .error e
                  | .ok a => .ok ⟨opcode, .arith, field_no, .arith a⟩
                | .bit, .cons a1 .nil =>
                  match mp_read_uint opcode a1 with
                  | .error e => .error e
                  | .ok n => .ok ⟨opcode, .bit, field_no, .bit n⟩
                | .splice, .cons a1 (.cons a2 (.cons a3 .nil)) =>
                  match read_arg_splice opcode a1 a2 a3 with
                  | .error e => .error e
                  | .ok arg => .ok ⟨opcode, .splice, field_no, arg⟩
                | _, _ =>
                  -- unreachable: the element count check above pins the
                  -- shape of args for each kind
                  .error .unknownUpdateOp
            | .nil =>
              -- unreachable: every meta requires at least 3 elements
              .error .unknownUpdateOp
      | _ => .error (.illegalParams "update operation name must be a string")
  | _ => .error (.illegalParams "update operation must be an array {op,..}")

/- }}} -/

/- {{{ Operation execution on a scalar field (update_op_do_arith,
update_op_do_bit in update_field.c). -/

/-- update_op_do_arith: read the old field as an arithmetic operand,
perform the operation, and compute new_field_len; the overflow error
carries index_base + field_no. -/
def update_op_do_arith (fp : FpOps) (opcode : Nat) (field_no : Int)
    (index_base : Int) (arg : OpArithArg) (old : MpVal) :
    Except Err (OpArithArg × Nat) :=
  match mp_read_arith_arg opcode old with
  | .error e => .error e
  | .ok left_arg =>
    match make_arith_operation fp left_arg arg opcode (index_base + field_no) with
    | .error e => .error e
    | .ok res => .ok (res, update_arith_sizeof res)

/-- update_op_do_bit: read the old field as an unsigned operand and
apply the bitwise opcode (one of the bytes of the characters & ^ |). -/
def update_op_do_bit (opcode : Nat) (arg_val : Nat) (old : MpVal) :
    Except Err (Nat × Nat) :=
  match mp_read_uint opcode old with
  | .error e => .error e
  | .ok val =>
    let res :=
      if opcode = '&'.toNat then Nat.land arg_val val
      else if opcode = '^'.toNat then Nat.xor arg_val val
      else Nat.lor arg_val val
    .ok (res, mp_sizeof_uint res)

/- }}} -/

/- {{{ Applying an operation to the top-level array and running a whole
update.

Modelled from the spec: the tree routing code (update_array.c,
update_nop.c and tuple_update.c) is not among the analysed sources.
Per the spec, an integer target addresses the i-th top-level array
element, negative targets count from the end (resolved against the
top-level array length), insert places the new field at position i,
delete removes count consecutive fields, and out-of-range targets raise
NoSuchFieldNo; scalar operations (set, arith, bit, splice) replace the
addressed field by the operation result computed by the do_op functions
above. -/

/-- Resolve an operation's target against the field count of the
top-level array.  Modelled from the spec: negative means from-the-end.
For insert, one position past the last field is also addressable. -/
def update_op_adjust_field_no (op : UpdateOp) (field_count : Nat) :
    Except Err Nat :=
  let upper : Int := match op.kind with
    | .insert => field_count
    | _ => (field_count : Int) - 1
  if op.field_no ≥ 0 then
    if op.field_no ≤ upper then .ok op.field_no.toNat
    else .error (.noSuchFieldNo op.field_no)
  else
    let i := op.field_no + field_count
    if 0 ≤ i ∧ i ≤ upper then .ok i.toNat
    else .error (.noSuchFieldNo op.field_no)

/-- Apply one decoded operation to the top-level fields.  Modelled from
the spec (the rope-based update_array.c is not among the analysed
sources), delegating to the scalar executors of update_field.c. -/
def update_op_apply (fp : FpOps) (index_base : Int) (fields : List MpVal)
    (op : UpdateOp) : Except Err (List MpVal) :=
  match update_op_adjust_field_no op fields.length with
  | .error e => .error e
  | .ok i =>
    match op.arg with
    | .set v =>
      match op.kind with
      | .insert => .ok (fields.insertIdx i v)
      | _ => .ok (fields.set i v)
    | .del count =>
      if i + count ≤ fields.length then
        .ok (fields.take i ++ fields.drop (i + count))
      else
        .error (.noSuchFieldNo op.field_no)
    | .arith a =>
      match update_op_do_arith fp op.opcode op.field_no index_base a
          (fields.getD i .nil) with
      | .error e => .error e
      | .ok (res, _) => .ok (fields.set i (arith_arg_to_mp res))
    | .bit v =>
      match update_op_do_bit op.opcode v (fields.getD i .nil) with
      | .error e => .error e
      | .ok (res, _) => .ok (fields.set i (.uint res))
    | .splice a =>
      match update_op_do_splice op.opcode op.field_no index_base a
          (fields.getD i .nil) with
      | .error e => .error e
      | .ok (arg, _) =>
        match fields.getD i .nil with
        | .str s => .ok (fields.set i (.str
            (s.take arg.offset.toNat ++ arg.paste ++
              (s.drop arg.tail_offset.toNat).take arg.tail_length.toNat)))
        | _ => .error (.updateArgType op.opcode "a string")

/-- Decode and apply a list of operations in order, stopping at the
first error.  Modelled from the spec: the engine runs to completion or
fails with a typed error. -/
def update_do_ops (fp : FpOps) (index_base : Int)
    (dict : List Nat → Option Nat) :
    List MpVal → List MpVal → Except Err (List MpVal)
  | [], fields => .ok fields
  | e :: rest, fields =>
    match update_op_decode index_base dict e with
    | .error err => .error err
    | .ok op =>
      match update_op_apply fp index_base fields op with
      | .error err => .error err
      | .ok fields2 => update_do_ops fp index_base dict rest fields2

/-- tuple_update_execute: run a whole update and re-encode the result.
Modelled from the spec (tuple_update.c is not among the analysed
sources): the record must be a MessagePack array; on any error no
output bytes are produced. -/
def tuple_update_execute (fp : FpOps) (index_base : Int)
    (dict : List Nat → Option Nat) (record : MpVal) (ops : List MpVal) :
    Except Err (List Nat) :=
  match record with
  | .arr elems =>
    match update_do_ops fp index_base dict ops elems.toList with
    | .error e => .error e
    | .ok fields => .ok (mp_encode (.arr (.ofList fields)))
  | _ => .error (.illegalParams "expected an array")

/-- box_tuple_update (box/tuple.c): runs tuple_update_execute and, when
it fails, rolls the region back and returns no tuple at all. -/
def box_tuple_update (fp : FpOps) (index_base : Int)
    (dict : List Nat → Option Nat) (record : MpVal) (ops : List MpVal) :
    Option (List Nat) :=
  match tuple_update_execute fp index_base dict record ops with
  | .ok bytes => some bytes
  | .error _ => none

/- }}} -/

/- {{{ JSON path lexing and field resolution (tuple.c and the path
lexer). -/

/-- A path token.  Modelled from the spec: the json lexer
(src/lib/json) is not among the analysed sources.  Numeric subscripts
are stored already adjusted by the lexer's index base; the wildcard
token is not modelled (no claim exercises multikey paths). -/
inductive JsonToken where
  | num (n : Nat)
  | key (s : List Nat)

/-- ASCII letter or underscore (byte codes). -/
def json_is_alpha (c : Nat) : Bool :=
  (65 ≤ c && c ≤ 90) || (97 ≤ c && c ≤ 122) || c = 95

/-- ASCII decimal digit. -/
def json_is_digit (c : Nat) : Bool :=
  48 ≤ c && c ≤ 57

/-- ASCII letter, underscore or digit. -/
def json_is_alnum (c : Nat) : Bool :=
  json_is_alpha c || json_is_digit c

/-- Numeric value of a digit string. -/
def json_digits_value (ds : List Nat) : Nat :=
  ds.foldl (fun a d => a * 10 + (d - 48)) 0

/-- Modelled from the spec: tokenize a path (byte codes), fuel-bounded.
Grammar per the spec's path lexer: a leading bare name, dot-names,
bracketed numeric subscripts (value adjusted by index_base, smaller
values are an error) and bracketed double-quoted string subscripts.
The first flag tells whether a bare name (without a leading dot) is
allowed.  Byte codes: 91 is an opening bracket, 93 a closing bracket,
34 a double quote, 46 a dot. -/
def json_lexer_tokens (index_base : Nat) :
    Nat → Bool → List Nat → Option (List JsonToken)
  | 0, _, _ => none
  | _ + 1, _, [] => some []
  | fuel + 1, first, c :: rest =>
    if c = 91 then
      match rest with
      | 34 :: rest2 =>
        let key := rest2.takeWhile (fun b => b ≠ 34)
        (match rest2.dropWhile (fun b => b ≠ 34) with
         | 34 :: 93 :: rest3 =>
           (json_lexer_tokens index_base fuel false rest3).map
             (fun ts => .key key :: ts)
         | _ => none)
      | _ =>
        let digits := rest.takeWhile json_is_digit
        (match rest.dropWhile json_is_digit with
         | 93 :: rest3 =>
           if digits ≠ [] ∧ index_base ≤ json_digits_value digits then
             (json_lexer_tokens index_base fuel false rest3).map
               (fun ts => .num (json_digits_value digits - index_base) :: ts)
           else none
         | _ => none)
    else if first ∧ json_is_alpha c = true then
      let name := c :: rest.takeWhile json_is_alnum
      (json_lexer_tokens index_base fuel false (rest.dropWhile json_is_alnum)).map
        (fun ts => .key name :: ts)
    else if ¬ first ∧ c = 46 then
      match rest with
      | c2 :: rest2 =>
        if json_is_alpha c2 then
          let name := c2 :: rest2.takeWhile json_is_alnum
          (json_lexer_tokens index_base fuel false (rest2.dropWhile json_is_alnum)).map
            (fun ts => .key name :: ts)
        else none
      | [] => none
    else none

/-- Tokenize a whole path (fuel larger than the byte count; every step
consumes at least one byte). -/
def json_lexer_lex (index_base : Nat) (path : List Nat) :
    Option (List JsonToken) :=
  json_lexer_tokens index_base (path.length + 1) true path

/-- The index base used for tuple field access (TUPLE_INDEX_BASE). -/
def TUPLE_INDEX_BASE : Nat := 1

/-- Numeric-key lookup inside a map (the MP_MAP branch of
tuple_field_go_to_index): an unsigned key equal to the target, or a
non-negative signed key equal to it, selects the entry's value. -/
def map_go_to_numeric : MpMap → Nat → Option MpVal
  | .nil, _ => none
  | .cons k v tl, target =>
    match k with
    | .uint value =>
      if value = target then some v else map_go_to_numeric tl target
    | .int value =>
      if value ≥ 0 ∧ value = target then some v
      else map_go_to_numeric tl target
    | _ => map_go_to_numeric tl target

/-- tuple_field_go_to_index: propagate to MessagePack(field)[index]
(0-based index); inside a map the index is searched as a numeric key
shifted by TUPLE_INDEX_BASE, as the C code does. -/
def tuple_field_go_to_index (field : MpVal) (index : Nat) : Option MpVal :=
  match field with
  | .arr elems =>
    if index < elems.length then elems.toList.get? index else none
  | .map kvs => map_go_to_numeric kvs (index + TUPLE_INDEX_BASE)
  | _ => none

/-- String-key lookup inside a map (tuple_field_go_to_key's loop). -/
def map_go_to_key : MpMap → List Nat → Option MpVal
  | .nil, _ => none
  | .cons k v tl, key =>
    match k with
    | .str s => if s = key then some v else map_go_to_key tl key
    | _ => map_go_to_key tl key

/-- tuple_field_go_to_key: propagate to MessagePack(field)[key]; only
maps have string keys. -/
def tuple_field_go_to_key (field : MpVal) (key : List Nat) : Option MpVal :=
  match field with
  | .map kvs => map_go_to_key kvs key
  | _ => none

/-- tuple_go_to_path: walk a token sequence down a field. -/
def tuple_go_to_path (field : MpVal) : List JsonToken → Option MpVal
  | [] => some field
  | .num n :: rest =>
    match tuple_field_go_to_index field n with
    | some f => tuple_go_to_path f rest
    | none => none
  | .key s :: rest =>
    match tuple_field_go_to_key field s with
    | some f => tuple_go_to_path f rest
    | none => none

/-- tuple_field_raw: the fieldno-th top-level field. -/
def tuple_field_raw (fields : List MpVal) (fieldno : Nat) : Option MpVal :=
  fields.get? fieldno

/-- tuple_field_raw_by_path: fetch a top-level field and descend by the
remaining path tokens.  Modelled from the spec: the function body lives
in tuple_format.c (not among the analysed sources); the descent itself
is tuple_go_to_path from tuple.c. -/
def tuple_field_raw_by_path (fields : List MpVal) (fieldno : Nat)
    (toks : List JsonToken) : Option MpVal :=
  match tuple_field_raw fields fieldno with
  | some f => tuple_go_to_path f toks
  | none => none

/-- tuple_field_raw_by_full_path: dictionary-first resolution of a full
path string.  First the whole path is tried as a field name; on a miss
the path is tokenized (the C code lexes lazily; tokenizing up front is
equivalent) and the leading token gives the top-level field - a number
directly, a name through the dictionary - after which the remaining
tokens are walked. -/
def tuple_field_raw_by_full_path (dict : List Nat → Option Nat)
    (fields : List MpVal) (path : List Nat) : Option MpVal :=
  match dict path with
  | some fieldno => tuple_field_raw fields fieldno
  | none =>
    match json_lexer_lex TUPLE_INDEX_BASE path with
    | none => none
    | some [] => none
    | some (.num n :: rest) => tuple_field_raw_by_path fields n rest
    | some (.key s :: rest) =>
      match dict s with
      | some fieldno => tuple_field_raw_by_path fields fieldno rest
      | none => none

/- }}} -/

/- {{{ Update tree serialization (update_field_sizeof,
update_field_store in update_field.c). -/

/-- A terminal scalar operation as stored in a SCALAR tree node, after
execution: what its store_op virtual function writes. -/
inductive ScalarOp where
  | set (value : List Nat)
  | arith (res : OpArithArg)
  | bit (val : Nat)
  | splice (arg : SpliceArg)

/-- new_field_len of a scalar operation, as the do_op functions set it
(for set and insert it is the byte length of the value slice). -/
def scalar_op_new_field_len : ScalarOp → Nat
  | .set v => v.length
  | .arith a => update_arith_sizeof a
  | .bit v => mp_sizeof_uint v
  | .splice a => mp_sizeof_str (a.offset + a.paste.length + a.tail_length).toNat

/-- store_f dispatch of a scalar operation: the bytes written into the
output buffer (store_op_set, store_op_arith, store_op_bit,
store_op_splice); data is the old field the node covers. -/
def scalar_op_store (op : ScalarOp) (data : List Nat) : List Nat :=
  match op with
  | .set v => v
  | .arith a => store_op_arith a
  | .bit v => mp_encode_uint v
  | .splice a =>
    match mp_decode_strl data with
    | some (_, payload) => store_op_splice a payload
    | none => []

mutual

/-- A node of the update tree (struct update_field restricted to the
variants update_field_sizeof and update_field_store handle: NOP, SCALAR
and ARRAY). -/
inductive UpdateField where
  | nop (data : List Nat)
  | scalar (data : List Nat) (op : ScalarOp)
  | array (children : UpdateFieldList)

/-- The children of an ARRAY node in order (the rope's leaves). -/
inductive UpdateFieldList where
  | nil
  | cons (hd : UpdateField) (tl : UpdateFieldList)

end

/-- Number of children of an ARRAY node. -/
def UpdateFieldList.length : UpdateFieldList → Nat
  | .nil => 0
  | .cons _ tl => 1 + tl.length

mutual

/-- update_field_sizeof: NOP is its original byte size, SCALAR is its
operation's new_field_len, ARRAY is the sum of the children plus the
new array header (the array case follows the spec; update_array.c is
not among the analysed sources). -/
def update_field_sizeof : UpdateField → Nat
  | .nop data => data.length
  | .scalar _ op => scalar_op_new_field_len op
  | .array cs => mp_sizeof_array cs.length + update_array_sizeof_children cs

/-- Sum of the sizes of an ARRAY node's children. -/
def update_array_sizeof_children : UpdateFieldList → Nat
  | .nil => 0
  | .cons f tl => update_field_sizeof f + update_array_sizeof_children tl

end

mutual

/-- update_field_store: NOP copies the original bytes verbatim, SCALAR
writes its operation's result, ARRAY writes the new header and the
children in order (the array case follows the spec; update_array.c is
not among the analysed sources). -/
def update_field_store : UpdateField → List Nat
  | .nop data => data
  | .scalar data op => scalar_op_store op data
  | .array cs => mp_encode_array cs.length ++ update_array_store_children cs

/-- Concatenated stores of an ARRAY node's children. -/
def update_array_store_children : UpdateFieldList → List Nat
  | .nil => []
  | .cons f tl => update_field_store f ++ update_array_store_children tl

end

/-- Well-formedness of a scalar operation relative to the field bytes
it replaces: an integer arithmetic result lies in the encodable range
(guaranteed by make_arith_operation's overflow check) and a splice
argument is consistent with the old string field, as
update_op_do_splice leaves it. -/
def scalar_op_wf (data : List Nat) : ScalarOp → Bool
  | .set _ => true
  | .arith (.int v) => int96_is_uint64 v || int96_is_neg_int64 v
  | .arith _ => true
  | .bit _ => true
  | .splice a =>
    match mp_decode_strl data with
    | some (len, payload) =>
      decide (payload.length = len) && decide (0 ≤ a.offset) &&
      decide (0 ≤ a.cut_length) &&
      decide (a.tail_offset = a.offset + a.cut_length) &&
      decide (a.tail_offset ≤ (len : Int)) &&
      decide (a.tail_offset + a.tail_length = (len : Int))
    | none => false

mutual

/-- Well-formedness of an update tree: every scalar node's operation is
consistent with the bytes it replaces. -/
def update_field_wf : UpdateField → Bool
  | .nop _ => true
  | .scalar data op => scalar_op_wf data op
  | .array cs => update_field_wf_children cs

/-- Well-formedness of all children of an ARRAY node. -/
def update_field_wf_children : UpdateFieldList → Bool
  | .nil => true
  | .cons f tl => update_field_wf f && update_field_wf_children tl

end

/- }}} -/

/- {{{ Error classification of a decode result (used to state claim C4's
characterization). -/

/-- Whether a decode outcome is an IllegalParams failure. -/
def except_is_illegal {α : Type} : Except Err α → Bool
  | .error e => e.isIllegalParams
  | .ok _ => false

/-- Whether a decode outcome is the UnknownUpdateOp failure. -/
def except_is_unknown {α : Type} : Except Err α → Bool
  | .error e => e.isUnknownUpdateOp
  | .ok _ => false

/-- The conditions under which update_op_decode reports IllegalParams:
the operation is not an array, is an empty array, its first element is
not a string, or - once the opcode is recognized and the element count
matches - the target element is neither an integer nor a string. -/
def decode_illegal_cond : MpVal → Bool
  | .arr .nil => true
  | .arr (.cons e0 rest) =>
    match e0 with
    | .str s =>
      (match update_op_by (update_op_first_char s rest) with
       | none => false
       | some meta =>
         if (MpList.cons e0 rest).length ≠ meta.arg_count then false
         else
           match rest with
           | .cons tgt _ =>
             (match tgt with
              | .uint _ | .int _ | .str _ => false
              | _ => true)
           | .nil => false)
    | _ => true
  | _ => true

/-- The conditions under which update_op_decode reports UnknownUpdateOp:
a well-shaped operation array whose opcode byte is not one of the nine
opcodes, or whose element count differs from the opcode's required
count. -/
def decode_unknown_cond : MpVal → Bool
  | .arr (.cons (.str s) rest) =>
    (match update_op_by (update_op_first_char s rest) with
     | none => true
     | some meta =>
       decide ((MpList.cons (MpVal.str s) rest).length ≠ meta.arg_count))
  | _ => false

/- }}} -/

/- {{{ Helper lemmas. -/

/-- beBytes always produces exactly the requested byte count. -/
theorem beBytes_length (k n : Nat) : (beBytes k n).length = k := by
  induction k generalizing n with
  | zero => rfl
  | succ k ih => simp [beBytes, ih]

/-- The unsigned encoder writes exactly mp_sizeof_uint bytes. -/
theorem mp_encode_uint_length (n : Nat) :
    (mp_encode_uint n).length = mp_sizeof_uint n := by
  unfold mp_encode_uint mp_sizeof_uint
  split_ifs <;> simp [beBytes_length]

/-- The signed encoder writes exactly mp_sizeof_int bytes. -/
theorem mp_encode_int_length (i : Int) :
    (mp_encode_int i).length = mp_sizeof_int i := by
  unfold mp_encode_int mp_sizeof_int
  split_ifs <;> simp [beBytes_length]

/-- The string header encoder writes exactly mp_sizeof_strl bytes. -/
theorem mp_encode_strl_length (len : Nat) :
    (mp_encode_strl len).length = mp_sizeof_strl len := by
  unfold mp_encode_strl mp_sizeof_strl
  split_ifs <;> simp [beBytes_length]

/-- The string encoder writes exactly mp_sizeof_str bytes. -/
theorem mp_encode_str_length (s : List Nat) :
    (mp_encode_str s).length = mp_sizeof_str s.length := by
  simp [mp_encode_str, mp_sizeof_str, mp_encode_strl_length]

/-- The array header encoder writes exactly mp_sizeof_array bytes. -/
theorem mp_encode_array_length (n : Nat) :
    (mp_encode_array n).length = mp_sizeof_array n := by
  unfold mp_encode_array mp_sizeof_array
  split_ifs <;> simp [beBytes_length]

/-- The 96-bit accumulator is exact on the signed 96-bit range. -/
theorem wrap96_eq (z : Int) (h1 : -(2 ^ 95) ≤ z) (h2 : z < 2 ^ 95) :
    wrap96 z = z := by
  unfold wrap96
  rw [Int.emod_eq_of_lt (by omega) (by omega)]
  omega

/-- The uint64 accumulator test decides membership in the unsigned
64-bit range. -/
theorem int96_is_uint64_iff (a : Int) :
    int96_is_uint64 a = true ↔ 0 ≤ a ∧ a < 2 ^ 64 := by
  simp [int96_is_uint64]

/-- The negative int64 accumulator test decides membership in the
negative signed 64-bit range. -/
theorem int96_is_neg_int64_iff (a : Int) :
    int96_is_neg_int64 a = true ↔ -(2 ^ 63) ≤ a ∧ a < 0 := by
  simp [int96_is_neg_int64]

/- }}} -/

/- {{{ Claim theorems. -/

/-- Unfolding of make_arith_operation on two integer operands: the
integer branch of the kernel. -/
theorem make_arith_operation_int (fp : FpOps) (x y : Int) (opcode : Nat)
    (errf : Int) :
    make_arith_operation fp (.int x) (.int y) opcode errf =
      (let res := if opcode = '+'.toNat then int96_add x y
                  else int96_add x (int96_invert y)
       if ¬ int96_is_uint64 res ∧ ¬ int96_is_neg_int64 res then
         .error (.updateIntegerOverflow opcode errf)
       else .ok (.int res)) := rfl

/-- C1: for an addition or subtraction whose two operands are integers
in the 64-bit operand range, the result is computed exactly in the
96-bit signed accumulator (no intermediate overflow); when the exact
result lies in the interval from -2^63 inclusive to 2^64 exclusive the
operation succeeds and the stored value is encoded as a signed integer
iff it is negative and as an unsigned integer otherwise; outside that
interval the operation fails with UpdateIntegerOverflow carrying the
user-visible target field number. -/
theorem arith_int_exact (fp : FpOps) (x y exact : Int) (opcode : Nat)
    (ib fn : Int)
    (hx : -(2 ^ 63) ≤ x ∧ x < 2 ^ 64) (hy : -(2 ^ 63) ≤ y ∧ y < 2 ^ 64)
    (hop : opcode = '+'.toNat ∨ opcode = '-'.toNat)
    (hexact : exact = if opcode = '+'.toNat then x + y else x - y) :
    ((-(2 ^ 63) ≤ exact ∧ exact < 2 ^ 64) →
      make_arith_operation fp (.int x) (.int y) opcode (ib + fn) =
        .ok (.int exact) ∧
      store_op_arith (.int exact) =
        (if exact < 0 then mp_encode_int exact
         else mp_encode_uint exact.toNat)) ∧
    ((exact < -(2 ^ 63) ∨ 2 ^ 64 ≤ exact) →
      make_arith_operation fp (.int x) (.int y) opcode (ib + fn) =
        .error (.updateIntegerOverflow opcode (ib + fn))) := by
  have hres :
      (if opcode = '+'.toNat then int96_add x y
       else int96_add x (int96_invert y)) = exact := by
    rcases hop with h | h <;> subst h
    · rw [if_pos rfl] at hexact ⊢
      rw [hexact]
      exact wrap96_eq _ (by omega) (by omega)
    · rw [if_neg (by decide)] at hexact ⊢
      rw [hexact]
      show wrap96 (x + wrap96 (-y)) = x - y
      rw [wrap96_eq (-y) (by omega) (by omega),
        wrap96_eq (x + -y) (by omega) (by omega)]
      ring
  rw [make_arith_operation_int]
  simp only [hres]
  constructor
  · rintro ⟨h1, h2⟩
    have hu : ¬ (¬ int96_is_uint64 exact = true ∧
        ¬ int96_is_neg_int64 exact = true) := by
      rw [int96_is_uint64_iff, int96_is_neg_int64_iff]
      omega
    refine ⟨by rw [if_neg hu], ?_⟩
    by_cases hneg : exact < 0
    · have hu0 : int96_is_uint64 exact = false := by
        rw [← Bool.not_eq_true, int96_is_uint64_iff]; omega
      simp [store_op_arith, hu0, hneg]
    · have hu1 : int96_is_uint64 exact = true := by
        rw [int96_is_uint64_iff]; omega
      simp [store_op_arith, hu1, hneg]
  · intro hout
    have hu : (¬ int96_is_uint64 exact = true ∧
        ¬ int96_is_neg_int64 exact = true) := by
      rw [int96_is_uint64_iff, int96_is_neg_int64_iff]
      omega
    rw [if_pos hu]

/-- Witness for C1: adding 2^63 to a field holding 2^63 (the spec's
scenario S5) overflows with UpdateIntegerOverflow. -/
theorem arith_int_exact_witness :
    ((-(2 ^ 63) ≤ (2 ^ 64 : Int) ∧ (2 ^ 64 : Int) < 2 ^ 64) →
      make_arith_operation fpZero (.int (2 ^ 63)) (.int (2 ^ 63))
          '+'.toNat (1 + 1) = .ok (.int (2 ^ 64)) ∧
      store_op_arith (.int (2 ^ 64)) =
        (if (2 ^ 64 : Int) < 0 then mp_encode_int (2 ^ 64)
         else mp_encode_uint (2 ^ 64 : Int).toNat)) ∧
    (((2 ^ 64 : Int) < -(2 ^ 63) ∨ (2 ^ 64 : Int) ≤ 2 ^ 64) →
      make_arith_operation fpZero (.int (2 ^ 63)) (.int (2 ^ 63))
          '+'.toNat (1 + 1) =
        .error (.updateIntegerOverflow '+'.toNat (1 + 1))) :=
  arith_int_exact fpZero (2 ^ 63) (2 ^ 63) (2 ^ 64) '+'.toNat 1 1
    (by norm_num) (by norm_num) (Or.inl rfl) (by rw [if_pos rfl]; norm_num)

/-- C2: both operands are classified in the arith_type lattice and the
operation is performed in the lowest enum code actually present (the
most precise type among the operands): the result's type code is the
minimum of the operand codes; in particular adding a double argument to
an unsigned 64-bit integer field yields a double-typed result; and
whenever the lowest code present is float the result is computed in
double and then narrowed to float. -/
theorem arith_lowest_type (fp : FpOps) :
    (∀ (a1 a2 : OpArithArg) (opcode : Nat) (errf : Int) (r : OpArithArg),
      make_arith_operation fp a1 a2 opcode errf = .ok r →
      r.typeCode = min a1.typeCode a2.typeCode) ∧
    (∀ (n b : Nat) (errf : Int), (n : Int) < 2 ^ 64 →
      make_arith_operation fp (.int n) (.dbl b) '+'.toNat errf =
        .ok (.dbl (fp.dadd (fp.of_uint64 n) b))) ∧
    (∀ (a1 a2 : OpArithArg) (opcode : Nat) (errf : Int),
      (opcode = '+'.toNat ∨ opcode = '-'.toNat) →
      min a1.typeCode a2.typeCode = 2 →
      make_arith_operation fp a1 a2 opcode errf =
        .ok (.flt (fp.dbl_to_flt
          ((if opcode = '+'.toNat then fp.dadd else fp.dsub)
            (cast_arith_arg_to_double fp a1)
            (cast_arith_arg_to_double fp a2))))) := by
  refine ⟨?_, ?_, ?_⟩
  · intro a1 a2 opcode errf r h
    cases a1 <;> cases a2 <;>
      simp only [make_arith_operation, OpArithArg.typeCode] at h ⊢ <;>
      split_ifs at h <;> simp_all <;> (subst h; rfl)
  · intro n b errf hn
    have hu : int96_is_uint64 (n : Int) = true := by
      rw [int96_is_uint64_iff]; omega
    simp [make_arith_operation, OpArithArg.typeCode,
      cast_arith_arg_to_double, hu]
  · intro a1 a2 opcode errf hop hmin
    rcases hop with h | h <;> subst h <;>
      cases a1 <;> cases a2 <;>
        first
        | (exfalso; omega)
        | simp_all [make_arith_operation, OpArithArg.typeCode,
            cast_arith_arg_to_double]

/-- Witness for C2: adding the double 5 (as a bit pattern) to the
unsigned integer field 7 yields a double-typed result. -/
theorem arith_lowest_type_witness :
    make_arith_operation fpZero (.int 7) (.dbl 5) '+'.toNat 0 =
      .ok (.dbl (fpZero.dadd (fpZero.of_uint64 7) 5)) :=
  (arith_lowest_type fpZero).2.1 7 5 0 (by norm_num)

/-- The splice writer produces exactly the head, paste and tail of the
new string, with the canonical header for its length. -/
theorem store_op_splice_spec (off2 cut2 : Int) (paste s : List Nat)
    (h0 : 0 ≤ off2) (h2 : 0 ≤ cut2)
    (h1 : off2 + cut2 ≤ (s.length : Int)) :
    store_op_splice ⟨off2, cut2, paste, off2 + cut2,
        (s.length : Int) - (off2 + cut2)⟩ s =
      mp_encode_str (s.take off2.toNat ++ paste ++
        s.drop (off2 + cut2).toNat) ∧
    (s.take off2.toNat ++ paste ++ s.drop (off2 + cut2).toNat).length =
      (off2 + paste.length + ((s.length : Int) - off2 - cut2)).toNat := by
  have hdrop : ((s.drop (off2 + cut2).toNat).take
      ((s.length : Int) - (off2 + cut2)).toNat) =
      s.drop (off2 + cut2).toNat := by
    apply List.take_of_length_le
    simp only [List.length_drop]
    omega
  have hlen : (s.take off2.toNat ++ paste ++
      s.drop (off2 + cut2).toNat).length =
      (off2 + paste.length + ((s.length : Int) - off2 - cut2)).toNat := by
    simp only [List.length_append, List.length_take, List.length_drop]
    omega
  refine ⟨?_, hlen⟩
  simp only [store_op_splice, mp_encode_str]
  rw [hdrop]
  have harg : ((off2 + (paste.length : Int) +
      ((s.length : Int) - (off2 + cut2))).toNat) =
      (s.take off2.toNat ++ paste ++ s.drop (off2 + cut2).toNat).length := by
    simp only [List.length_append, List.length_take, List.length_drop]
    omega
  rw [harg]

/-- Resolution behaviour of update_op_do_splice in the non-error case:
with the offset and cut length resolved as off2 and cut2, the call
returns the filled argument and the new field length. -/
theorem update_op_do_splice_resolve (opcode : Nat) (fn ib off cut : Int)
    (paste s : List Nat) (off2 cut2 : Int) (hib : ib = 0 ∨ ib = 1)
    (hoff2 : (off < 0 ∧ 0 ≤ off + (s.length : Int) + 1 ∧
              off2 = off + (s.length : Int) + 1) ∨
             (ib ≤ off ∧ off2 = min (off - ib) (s.length : Int)))
    (hcut2 : cut2 = if cut < 0 then
               (if (s.length : Int) - off2 < -cut then 0
                else cut + ((s.length : Int) - off2))
             else min cut ((s.length : Int) - off2)) :
    update_op_do_splice opcode fn ib ⟨off, cut, paste, 0, 0⟩ (.str s) =
      .ok (⟨off2, cut2, paste, off2 + cut2,
            (s.length : Int) - (off2 + cut2)⟩,
        mp_sizeof_str (off2 + paste.length +
          ((s.length : Int) - off2 - cut2)).toNat) := by
  have hL : (0 : Int) ≤ (s.length : Int) := Int.ofNat_nonneg _
  simp only [update_op_do_splice, mp_read_str]
  rcases hoff2 with ⟨h1, h2, h3⟩ | ⟨h1, h2⟩
  · rw [if_pos h1, if_neg (by omega)]
    subst h3
    dsimp only
    have hco : (if cut < 0 then
        (if -cut > (s.length : Int) - (off + (s.length : Int) + 1) then 0
         else cut + ((s.length : Int) - (off + (s.length : Int) + 1)))
        else if cut > (s.length : Int) - (off + (s.length : Int) + 1) then
          ((s.length : Int) - (off + (s.length : Int) + 1))
        else cut) = cut2 := by
      rw [hcut2]; split_ifs <;> omega
    rw [hco, sub_sub]
  · rw [if_neg (by omega), if_pos (by omega)]
    by_cases hclamp : off - ib > (s.length : Int)
    · rw [if_pos hclamp]
      have h3 : off2 = (s.length : Int) := by omega
      subst h3
      dsimp only
      have hco : (if cut < 0 then
          (if -cut > (s.length : Int) - (s.length : Int) then 0
           else cut + ((s.length : Int) - (s.length : Int)))
          else if cut > (s.length : Int) - (s.length : Int) then
            ((s.length : Int) - (s.length : Int))
          else cut) = cut2 := by
        rw [hcut2]; split_ifs <;> omega
      rw [hco, sub_sub]
    · rw [if_neg hclamp]
      have h3 : off2 = off - ib := by omega
      subst h3
      dsimp only
      have hco : (if cut < 0 then
          (if -cut > (s.length : Int) - (off - ib) then 0
           else cut + ((s.length : Int) - (off - ib)))
          else if cut > (s.length : Int) - (off - ib) then
            ((s.length : Int) - (off - ib))
          else cut) = cut2 := by
        rw [hcut2]; split_ifs <;> omega
      rw [hco, sub_sub]

/-- C3: the splice resolution algorithm.  With L the byte length of the
string field: a negative offset is replaced by offset + L + 1 and fails
iff that sum is still negative; a non-negative offset is replaced by
offset - index_base, failing when that is negative and clamped to L
when it exceeds L; a negative cut length becomes cut + (L - offset), or
0 when -cut exceeds L - offset, and a positive cut length is clamped to
L - offset; the resulting string consists of the first offset bytes,
the paste, and the old bytes from position offset + cut onward, and its
payload length is offset + paste length + (L - offset - cut). -/
theorem splice_semantics (opcode : Nat) (fn ib off cut : Int)
    (paste s : List Nat) (hib : ib = 0 ∨ ib = 1) :
    ((off < 0 ∧ off + (s.length : Int) + 1 < 0) →
      update_op_do_splice opcode fn ib ⟨off, cut, paste, 0, 0⟩ (.str s) =
        .error (.spliceError (ib + fn) "offset is out of bound")) ∧
    ((0 ≤ off ∧ off < ib) →
      update_op_do_splice opcode fn ib ⟨off, cut, paste, 0, 0⟩ (.str s) =
        .error (.spliceError (ib + fn) "offset is out of bound")) ∧
    (∀ off2 cut2 : Int,
      ((off < 0 ∧ 0 ≤ off + (s.length : Int) + 1 ∧
        off2 = off + (s.length : Int) + 1) ∨
       (ib ≤ off ∧ off2 = min (off - ib) (s.length : Int))) →
      (cut2 = if cut < 0 then
         (if (s.length : Int) - off2 < -cut then 0
          else cut + ((s.length : Int) - off2))
       else min cut ((s.length : Int) - off2)) →
      update_op_do_splice opcode fn ib ⟨off, cut, paste, 0, 0⟩ (.str s) =
        .ok (⟨off2, cut2, paste, off2 + cut2,
              (s.length : Int) - (off2 + cut2)⟩,
          mp_sizeof_str (off2 + paste.length +
            ((s.length : Int) - off2 - cut2)).toNat) ∧
      store_op_splice ⟨off2, cut2, paste, off2 + cut2,
          (s.length : Int) - (off2 + cut2)⟩ s =
        mp_encode_str (s.take off2.toNat ++ paste ++
          s.drop (off2 + cut2).toNat) ∧
      (s.take off2.toNat ++ paste ++ s.drop (off2 + cut2).toNat).length =
        (off2 + paste.length + ((s.length : Int) - off2 - cut2)).toNat) := by
  have hL : (0 : Int) ≤ (s.length : Int) := Int.ofNat_nonneg _
  refine ⟨?_, ?_, ?_⟩
  · rintro ⟨h1, h2⟩
    simp only [update_op_do_splice, mp_read_str]
    rw [if_pos h1, if_pos (by omega)]
  · rintro ⟨h1, h2⟩
    simp only [update_op_do_splice, mp_read_str]
    rw [if_neg (by omega), if_neg (by omega)]
  · intro off2 cut2 hoff2 hcut2
    have hb0 : 0 ≤ off2 := by
      rcases hoff2 with ⟨h1, h2, h3⟩ | ⟨h1, h2⟩ <;> omega
    have hbL : off2 ≤ (s.length : Int) := by
      rcases hoff2 with ⟨h1, h2, h3⟩ | ⟨h1, h2⟩ <;> omega
    have hc0 : 0 ≤ cut2 := by
      rw [hcut2]; split_ifs <;> omega
    have hcL : off2 + cut2 ≤ (s.length : Int) := by
      rw [hcut2]; split_ifs <;> omega
    have hok := update_op_do_splice_resolve opcode fn ib off cut paste s
      off2 cut2 hib hoff2 hcut2
    exact ⟨hok, (store_op_splice_spec off2 cut2 paste s hb0 hc0 hcL).1,
      (store_op_splice_spec off2 cut2 paste s hb0 hc0 hcL).2⟩

/-- Witness for C3: the spec's scenario S3 - splicing XYZ into hello at
offset 2 (base 1) cutting 2 bytes gives hXYZlo. -/
theorem splice_semantics_witness :
    update_op_do_splice ':'.toNat 0 1 ⟨2, 2, strBytes "XYZ", 0, 0⟩
        (.str (strBytes "hello")) =
      .ok (⟨1, 2, strBytes "XYZ", 1 + 2,
            ((strBytes "hello").length : Int) - (1 + 2)⟩,
        mp_sizeof_str ((1 : Int) + ((strBytes "XYZ").length : Int) +
          (((strBytes "hello").length : Int) - 1 - 2)).toNat) ∧
    store_op_splice ⟨1, 2, strBytes "XYZ", 1 + 2,
        ((strBytes "hello").length : Int) - (1 + 2)⟩ (strBytes "hello") =
      mp_encode_str ((strBytes "hello").take (1 : Int).toNat ++
        strBytes "XYZ" ++ (strBytes "hello").drop ((1 : Int) + 2).toNat) ∧
    ((strBytes "hello").take (1 : Int).toNat ++ strBytes "XYZ" ++
        (strBytes "hello").drop ((1 : Int) + 2).toNat).length =
      ((1 : Int) + ((strBytes "XYZ").length : Int) +
        (((strBytes "hello").length : Int) - 1 - 2)).toNat :=
  (splice_semantics ':'.toNat 0 1 2 2 (strBytes "XYZ") (strBytes "hello")
      (Or.inr rfl)).2.2 1 2
    (Or.inr ⟨by norm_num, by decide⟩)
    (by decide)

/-- C7: a splice with zero cut length, empty paste and offset equal to
the index base is the identity on a string field: it resolves
successfully with new field length equal to the field's encoded size,
and the stored bytes are byte-identical to the original encoded
field. -/
theorem splice_zero_identity (opcode : Nat) (fn ib : Int) (s : List Nat)
    (hib : ib = 0 ∨ ib = 1) :
    ∃ arg : SpliceArg,
      update_op_do_splice opcode fn ib ⟨ib, 0, [], 0, 0⟩ (.str s) =
        .ok (arg, mp_sizeof_str s.length) ∧
      store_op_splice arg s = mp_encode_str s := by
  have hL : (0 : Int) ≤ (s.length : Int) := Int.ofNat_nonneg _
  have hres := update_op_do_splice_resolve opcode fn ib ib 0 [] s 0 0 hib
    (Or.inr ⟨le_refl ib, by omega⟩)
    (by rw [if_neg (by omega)]; omega)
  refine ⟨⟨0, 0, [], 0 + 0, (s.length : Int) - (0 + 0)⟩, ?_, ?_⟩
  · rw [hres]
    have : ((0 : Int) + ([] : List Nat).length +
        ((s.length : Int) - 0 - 0)).toNat = s.length := by
      simp
    rw [this]
  · have hst := (store_op_splice_spec 0 0 [] s (by omega) (by omega)
      (by omega)).1
    rw [hst]
    simp

/-- Witness for C7: the identity splice on the string abc. -/
theorem splice_zero_identity_witness :
    ∃ arg : SpliceArg,
      update_op_do_splice ':'.toNat 0 1 ⟨1, 0, [], 0, 0⟩
          (.str (strBytes "abc")) =
        .ok (arg, mp_sizeof_str (strBytes "abc").length) ∧
      store_op_splice arg (strBytes "abc") = mp_encode_str (strBytes "abc") :=
  splice_zero_identity ':'.toNat 0 1 (strBytes "abc") (Or.inr rfl)

/-- Decomposition of the decoder for a set operation on a concrete
opcode string: the result only depends on the target resolution. -/
theorem update_op_decode_set_eq (ib : Int) (dict : List Nat → Option Nat)
    (tgt v : MpVal) :
    update_op_decode ib dict
        (.arr (.cons (.str (strBytes "=")) (.cons tgt (.cons v .nil)))) =
      (match update_op_decode_target ib dict '='.toNat tgt with
       | .error e => .error e
       | .ok fn => .ok ⟨'='.toNat, .set, fn, .set v⟩) := rfl

/-- An unsigned target at least the index base and inside the signed
32-bit range decodes to the base-adjusted field number. -/
theorem target_uint_pos (ib : Int) (dict : List Nat → Option Nat)
    (opcode : Nat) (n : Nat) (h1 : ib ≤ n) (h2 : n < 2 ^ 31) :
    update_op_decode_target ib dict opcode (.uint n) = .ok ((n : Int) - ib) := by
  simp only [update_op_decode_target, mp_read_i32]
  rw [if_pos (by omega)]
  dsimp only
  rw [if_pos (by omega)]

/-- A negative signed target inside the 32-bit range is kept as is. -/
theorem target_int_neg (ib : Int) (dict : List Nat → Option Nat)
    (opcode : Nat) (k : Int) (h1 : k < 0) (h2 : -(2 ^ 31) ≤ k)
    (h3 : 0 ≤ ib) :
    update_op_decode_target ib dict opcode (.int k) = .ok k := by
  simp only [update_op_decode_target, mp_read_i32]
  rw [if_pos (by omega)]
  dsimp only
  rw [if_neg (by omega), if_pos (by omega)]

/-- A non-negative target below the index base fails with
NoSuchFieldNo at decode time. -/
theorem target_uint_below (ib : Int) (dict : List Nat → Option Nat)
    (opcode : Nat) (n : Nat) (h1 : (n : Int) < ib) (h2 : n < 2 ^ 31) :
    update_op_decode_target ib dict opcode (.uint n) =
      .error (.noSuchFieldNo n) := by
  simp only [update_op_decode_target, mp_read_i32]
  rw [if_pos (by omega)]
  dsimp only
  rw [if_neg (by omega), if_neg (by omega)]

/-- C5: with index base 1, an integer target at least 1 decodes to
field number target - 1, target 0 fails with NoSuchFieldNo at decode
time, and a negative target is kept and resolved from the end of the
top-level array: on the record 1,2,3 a set at -1 yields 1,2,9 and a
set at -4 fails with NoSuchFieldNo (the spec's scenario S6). -/
theorem target_resolution (dict : List Nat → Option Nat) (v : MpVal) :
    (∀ n : Nat, 1 ≤ n → n < 2 ^ 31 →
      update_op_decode 1 dict
          (.arr (.cons (.str (strBytes "=")) (.cons (.uint n)
            (.cons v .nil)))) =
        .ok ⟨'='.toNat, .set, (n : Int) - 1, .set v⟩) ∧
    (update_op_decode 1 dict
        (.arr (.cons (.str (strBytes "=")) (.cons (.uint 0)
          (.cons v .nil)))) =
      .error (.noSuchFieldNo 0)) ∧
    (∀ k : Int, k < 0 → -(2 ^ 31) ≤ k →
      update_op_decode 1 dict
          (.arr (.cons (.str (strBytes "=")) (.cons (.int k)
            (.cons v .nil)))) =
        .ok ⟨'='.toNat, .set, k, .set v⟩) ∧
    (∀ fp : FpOps,
      tuple_update_execute fp 1 dict
        (.arr (.cons (.uint 1) (.cons (.uint 2) (.cons (.uint 3) .nil))))
        [.arr (.cons (.str (strBytes "=")) (.cons (.int (-1))
          (.cons (.uint 9) .nil)))] =
        .ok (mp_encode (.arr (.cons (.uint 1) (.cons (.uint 2)
          (.cons (.uint 9) .nil)))))) ∧
    (∀ fp : FpOps,
      tuple_update_execute fp 1 dict
        (.arr (.cons (.uint 1) (.cons (.uint 2) (.cons (.uint 3) .nil))))
        [.arr (.cons (.str (strBytes "=")) (.cons (.int (-4))
          (.cons (.uint 9) .nil)))] =
        .error (.noSuchFieldNo (-4))) := by
  refine ⟨?_, by rfl, ?_, fun fp => by rfl, fun fp => by rfl⟩
  · intro n h1 h2
    rw [update_op_decode_set_eq,
      target_uint_pos 1 dict '='.toNat n (by exact_mod_cast h1) h2]
  · intro k h1 h2
    rw [update_op_decode_set_eq,
      target_int_neg 1 dict '='.toNat k h1 h2 (by norm_num)]

/-- Witness for C5: target 2 with base 1 addresses field number 1. -/
theorem target_resolution_witness :
    update_op_decode 1 (fun _ => none)
        (.arr (.cons (.str (strBytes "=")) (.cons (.uint 2)
          (.cons (.uint 9) .nil)))) =
      .ok ⟨'='.toNat, .set, ((2 : Nat) : Int) - 1, .set (.uint 9)⟩ :=
  (target_resolution (fun _ => none) (.uint 9)).1 2 (by norm_num) (by norm_num)

/-- Decomposition of the decoder for a splice operation. -/
theorem update_op_decode_splice_eq (ib : Int) (dict : List Nat → Option Nat)
    (tgt a1 a2 a3 : MpVal) :
    update_op_decode ib dict
        (.arr (.cons (.str (strBytes ":")) (.cons tgt
          (.cons a1 (.cons a2 (.cons a3 .nil)))))) =
      (match update_op_decode_target ib dict ':'.toNat tgt with
       | .error e => .error e
       | .ok fn =>
         match read_arg_splice ':'.toNat a1 a2 a3 with
         | .error e => .error e
         | .ok arg => .ok ⟨':'.toNat, .splice, fn, arg⟩) := rfl

/-- C10: an integer field target, and a splice offset or cut length,
must fit a signed 32-bit integer: a validly encoded integer outside
that range is rejected at decode time with UpdateArgType expecting an
integer. -/
theorem i32_bound_rejection (dict : List Nat → Option Nat) :
    (∀ (n : Nat) (v : MpVal), 2 ^ 31 ≤ n →
      update_op_decode 1 dict
          (.arr (.cons (.str (strBytes "=")) (.cons (.uint n)
            (.cons v .nil)))) =
        .error (.updateArgType '='.toNat "an integer")) ∧
    (∀ (i : Int) (v : MpVal), i < -(2 ^ 31) →
      update_op_decode 1 dict
          (.arr (.cons (.str (strBytes "=")) (.cons (.int i)
            (.cons v .nil)))) =
        .error (.updateArgType '='.toNat "an integer")) ∧
    (∀ (n : Nat) (p : List Nat), 2 ^ 31 ≤ n →
      update_op_decode 1 dict
          (.arr (.cons (.str (strBytes ":")) (.cons (.uint 1)
            (.cons (.uint n) (.cons (.uint 0) (.cons (.str p) .nil)))))) =
        .error (.updateArgType ':'.toNat "an integer")) ∧
    (∀ (n : Nat) (p : List Nat), 2 ^ 31 ≤ n →
      update_op_decode 1 dict
          (.arr (.cons (.str (strBytes ":")) (.cons (.uint 1)
            (.cons (.uint 0) (.cons (.uint n) (.cons (.str p) .nil)))))) =
        .error (.updateArgType ':'.toNat "an integer")) := by
  refine ⟨?_, ?_, ?_, ?_⟩
  · intro n v h
    rw [update_op_decode_set_eq]
    have ht : update_op_decode_target 1 dict '='.toNat (.uint n) =
        .error (.updateArgType '='.toNat "an integer") := by
      simp only [update_op_decode_target, mp_read_i32]
      rw [if_neg (by omega)]
    rw [ht]
  · intro i v h
    rw [update_op_decode_set_eq]
    have ht : update_op_decode_target 1 dict '='.toNat (.int i) =
        .error (.updateArgType '='.toNat "an integer") := by
      simp only [update_op_decode_target, mp_read_i32]
      rw [if_neg (by omega)]
    rw [ht]
  · intro n p h
    rw [update_op_decode_splice_eq,
      target_uint_pos 1 dict ':'.toNat 1 (by norm_num) (by norm_num)]
    have hr : read_arg_splice ':'.toNat (.uint n) (.uint 0) (.str p) =
        .error (.updateArgType ':'.toNat "an integer") := by
      simp only [read_arg_splice, mp_read_i32]
      rw [if_neg (by omega)]
    rw [hr]
  · intro n p h
    rw [update_op_decode_splice_eq,
      target_uint_pos 1 dict ':'.toNat 1 (by norm_num) (by norm_num)]
    have hr : read_arg_splice ':'.toNat (.uint 0) (.uint n) (.str p) =
        .error (.updateArgType ':'.toNat "an integer") := by
      simp only [read_arg_splice, mp_read_i32]
      norm_num
      rw [if_neg (by omega)]
    rw [hr]

/-- Witness for C10: the unsigned target 2^31 is rejected. -/
theorem i32_bound_rejection_witness :
    update_op_decode 1 (fun _ => none)
        (.arr (.cons (.str (strBytes "=")) (.cons (.uint (2 ^ 31))
          (.cons (.uint 9) .nil)))) =
      .error (.updateArgType '='.toNat "an integer") :=
  (i32_bound_rejection (fun _ => none)).1 (2 ^ 31) (.uint 9) (le_refl _)

/-- A failing prefix of operations makes the whole operation list fail
with the same error. -/
theorem update_do_ops_append_error (fp : FpOps) (ib : Int)
    (dict : List Nat → Option Nat) (ops1 : List MpVal) :
    ∀ (ops2 : List MpVal) (fields : List MpVal) (e : Err),
      update_do_ops fp ib dict ops1 fields = .error e →
      update_do_ops fp ib dict (ops1 ++ ops2) fields = .error e := by
  induction ops1 with
  | nil =>
    intro ops2 fields e h
    simp [update_do_ops] at h
  | cons op rest ih =>
    intro ops2 fields e h
    simp only [update_do_ops, List.cons_append] at h ⊢
    cases hd : update_op_decode ib dict op with
    | error err => rw [hd] at h; dsimp only at h ⊢; exact h
    | ok o =>
      rw [hd] at h
      dsimp only at h ⊢
      cases ha : update_op_apply fp ib fields o with
      | error err => rw [ha] at h; dsimp only at h ⊢; exact h
      | ok f2 =>
        rw [ha] at h
        dsimp only at h ⊢
        exact ih ops2 f2 e h

/-- C9: the update is atomic with respect to errors: if a prefix of
the operation sequence fails, the whole sequence fails with that same
error, and whenever the engine fails, box_tuple_update produces no
output bytes at all - a partially applied prefix is never
observable. -/
theorem update_error_atomic (fp : FpOps) (ib : Int)
    (dict : List Nat → Option Nat) :
    (∀ (ops1 ops2 : List MpVal) (fields : List MpVal) (e : Err),
      update_do_ops fp ib dict ops1 fields = .error e →
      update_do_ops fp ib dict (ops1 ++ ops2) fields = .error e) ∧
    (∀ (record : MpVal) (ops : List MpVal) (e : Err),
      tuple_update_execute fp ib dict record ops = .error e →
      box_tuple_update fp ib dict record ops = none) ∧
    (∀ (elems : MpList) (ops1 ops2 : List MpVal) (e : Err),
      update_do_ops fp ib dict ops1 elems.toList = .error e →
      box_tuple_update fp ib dict (.arr elems) (ops1 ++ ops2) = none) := by
  refine ⟨fun ops1 ops2 fields e h =>
    update_do_ops_append_error fp ib dict ops1 ops2 fields e h, ?_, ?_⟩
  · intro record ops e h
    simp only [box_tuple_update]
    rw [h]
  · intro elems ops1 ops2 e h
    have h2 := update_do_ops_append_error fp ib dict ops1 ops2
      elems.toList e h
    simp only [box_tuple_update, tuple_update_execute]
    rw [h2]

/-- Witness for C9: a malformed first operation (not an array) makes
the whole two-operation update produce no output. -/
theorem update_error_atomic_witness :
    box_tuple_update fpZero 1 (fun _ => none)
        (.arr (.cons (.uint 1) .nil)) ([.nil] ++ [.nil]) = none :=
  (update_error_atomic fpZero 1 (fun _ => none)).2.2
    (.cons (.uint 1) .nil) [.nil] [.nil]
    (.illegalParams "update operation must be an array {op,..}")
    (by rfl)

/-- Decoding can only yield one of the six op metas. -/
theorem update_op_by_cases (c : Nat) (meta : UpdateOpMeta)
    (h : update_op_by c = some meta) :
    meta = op_set ∨ meta = op_arith ∨ meta = op_bit ∨ meta = op_splice ∨
    meta = op_delete ∨ meta = op_insert := by
  unfold update_op_by at h
  split_ifs at h <;> simp_all

/-- An UpdateArgType error is neither IllegalParams nor
UnknownUpdateOp. -/
theorem err_class_of_argType (e : Err) (opcode : Nat) (msg : String)
    (h : Err.updateArgType opcode msg = e) :
    e.isIllegalParams = false ∧ e.isUnknownUpdateOp = false := by
  subst h; exact ⟨rfl, rfl⟩

/-- A NoSuchFieldNo error is neither IllegalParams nor
UnknownUpdateOp. -/
theorem err_class_of_noSuchFieldNo (e : Err) (n : Int)
    (h : Err.noSuchFieldNo n = e) :
    e.isIllegalParams = false ∧ e.isUnknownUpdateOp = false := by
  subst h; exact ⟨rfl, rfl⟩

/-- A NoSuchFieldName error is neither IllegalParams nor
UnknownUpdateOp. -/
theorem err_class_of_noSuchFieldName (e : Err) (s : List Nat)
    (h : Err.noSuchFieldName s = e) :
    e.isIllegalParams = false ∧ e.isUnknownUpdateOp = false := by
  subst h; exact ⟨rfl, rfl⟩

/-- mp_read_i32 errors are UpdateArgType. -/
theorem mp_read_i32_err_class (opcode : Nat) (v : MpVal) (e : Err)
    (h : mp_read_i32 opcode v = .error e) :
    e.isIllegalParams = false ∧ e.isUnknownUpdateOp = false := by
  unfold mp_read_i32 at h
  cases v <;> dsimp only at h <;> (try split_ifs at h) <;>
    first
    | (simp only [Except.error.injEq] at h
       exact err_class_of_argType _ _ _ h)
    | simp at h

/-- mp_read_uint errors are UpdateArgType. -/
theorem mp_read_uint_err_class (opcode : Nat) (v : MpVal) (e : Err)
    (h : mp_read_uint opcode v = .error e) :
    e.isIllegalParams = false ∧ e.isUnknownUpdateOp = false := by
  unfold mp_read_uint at h
  cases v <;> dsimp only at h <;>
    first
    | (simp only [Except.error.injEq] at h
       exact err_class_of_argType _ _ _ h)
    | simp at h

/-- mp_read_arith_arg errors are UpdateArgType. -/
theorem mp_read_arith_arg_err_class (opcode : Nat) (v : MpVal) (e : Err)
    (h : mp_read_arith_arg opcode v = .error e) :
    e.isIllegalParams = false ∧ e.isUnknownUpdateOp = false := by
  unfold mp_read_arith_arg at h
  cases v <;> dsimp only at h <;>
    first
    | (simp only [Except.error.injEq] at h
       exact err_class_of_argType _ _ _ h)
    | simp at h

/-- mp_read_str errors are UpdateArgType. -/
theorem mp_read_str_err_class (opcode : Nat) (v : MpVal) (e : Err)
    (h : mp_read_str opcode v = .error e) :
    e.isIllegalParams = false ∧ e.isUnknownUpdateOp = false := by
  unfold mp_read_str at h
  cases v <;> dsimp only at h <;>
    first
    | (simp only [Except.error.injEq] at h
       exact err_class_of_argType _ _ _ h)
    | simp at h

/-- read_arg_delete errors are UpdateArgType. -/
theorem read_arg_delete_err_class (opcode : Nat) (v : MpVal) (e : Err)
    (h : read_arg_delete opcode v = .error e) :
    e.isIllegalParams = false ∧ e.isUnknownUpdateOp = false := by
  unfold read_arg_delete at h
  cases v <;> dsimp only at h <;>
    first
    | (simp only [Except.error.injEq] at h
       exact err_class_of_argType _ _ _ h)
    | simp at h

/-- read_arg_splice errors are UpdateArgType. -/
theorem read_arg_splice_err_class (opcode : Nat) (v1 v2 v3 : MpVal) (e : Err)
    (h : read_arg_splice opcode v1 v2 v3 = .error e) :
    e.isIllegalParams = false ∧ e.isUnknownUpdateOp = false := by
  unfold read_arg_splice at h
  cases h1 : mp_read_i32 opcode v1 with
  | error e1 =>
    rw [h1] at h
    simp only [Except.error.injEq] at h
    subst h
    exact mp_read_i32_err_class opcode v1 e1 h1
  | ok o1 =>
    rw [h1] at h
    dsimp only at h
    cases h2 : mp_read_i32 opcode v2 with
    | error e2 =>
      rw [h2] at h
      simp only [Except.error.injEq] at h
      subst h
      exact mp_read_i32_err_class opcode v2 e2 h2
    | ok o2 =>
      rw [h2] at h
      dsimp only at h
      cases h3 : mp_read_str opcode v3 with
      | error e3 =>
        rw [h3] at h
        simp only [Except.error.injEq] at h
        subst h
        exact mp_read_str_err_class opcode v3 e3 h3
      | ok o3 =>
        rw [h3] at h
        simp at h

/-- Target resolution errors of integer or string targets are never
IllegalParams nor UnknownUpdateOp. -/
theorem target_err_class (ib : Int) (dict : List Nat → Option Nat)
    (opcode : Nat) (tgt : MpVal) (e : Err)
    (hg : (∃ n, tgt = .uint n) ∨ (∃ i, tgt = .int i) ∨ (∃ s, tgt = .str s))
    (h : update_op_decode_target ib dict opcode tgt = .error e) :
    e.isIllegalParams = false ∧ e.isUnknownUpdateOp = false := by
  rcases hg with ⟨n, rfl⟩ | ⟨i, rfl⟩ | ⟨s, rfl⟩
  · unfold update_op_decode_target at h
    dsimp only at h
    cases h1 : mp_read_i32 opcode (.uint n) with
    | error e1 =>
      rw [h1] at h
      simp only [Except.error.injEq] at h
      subst h
      exact mp_read_i32_err_class opcode (.uint n) e1 h1
    | ok o1 =>
      rw [h1] at h
      dsimp only at h
      split_ifs at h <;>
        first
        | (simp only [Except.error.injEq] at h
           exact err_class_of_noSuchFieldNo _ _ h)
        | simp at h
  · unfold update_op_decode_target at h
    dsimp only at h
    cases h1 : mp_read_i32 opcode (.int i) with
    | error e1 =>
      rw [h1] at h
      simp only [Except.error.injEq] at h
      subst h
      exact mp_read_i32_err_class opcode (.int i) e1 h1
    | ok o1 =>
      rw [h1] at h
      dsimp only at h
      split_ifs at h <;>
        first
        | (simp only [Except.error.injEq] at h
           exact err_class_of_noSuchFieldNo _ _ h)
        | simp at h
  · unfold update_op_decode_target at h
    dsimp only at h
    cases h1 : dict s with
    | none =>
      rw [h1] at h
      simp only [Except.error.injEq] at h
      exact err_class_of_noSuchFieldName _ _ h
    | some fn =>
      rw [h1] at h
      simp at h

/-- Counterexample for C4: the opcode string with the two characters
equal sign and x is not one of the nine opcodes, yet the operation
decodes successfully because only the first character of the opcode
string is examined; and an operation with the unknown opcode question
mark and a nil target fails with UnknownUpdateOp rather than
IllegalParams, because the opcode and count checks precede the target
check. -/
theorem decode_opcode_first_char_cex :
    update_op_decode 1 (fun _ => none)
        (.arr (.cons (.str (strBytes "=x")) (.cons (.uint 1)
          (.cons (.uint 5) .nil)))) =
      .ok ⟨'='.toNat, .set, 0, .set (.uint 5)⟩ ∧
    update_op_decode 1 (fun _ => none)
        (.arr (.cons (.str (strBytes "?")) (.cons .nil (.cons .nil .nil)))) =
      .error .unknownUpdateOp := ⟨rfl, rfl⟩

/-- C4 (amended): decoding an update operation fails with
IllegalParams iff the operation is not an array, is an empty array,
its first element is not a string, or - once the opcode byte is
recognized and the element count matches - the target element is
neither an integer nor a string; it fails with UnknownUpdateOp iff the
first character of the opcode string is not one of the nine opcode
characters, or the element count differs from the opcode's required
count (3 for every opcode, 5 for splice).  The opcode string's length
beyond its first byte is never checked, which is what the
counterexample exhibits. -/
theorem decode_error_classes (ib : Int) (dict : List Nat → Option Nat)
    (e : MpVal) :
    except_is_illegal (update_op_decode ib dict e) = decode_illegal_cond e ∧
    except_is_unknown (update_op_decode ib dict e) = decode_unknown_cond e := by
  cases e with
  | arr elems =>
    cases elems with
    | nil => exact ⟨rfl, rfl⟩
    | cons e0 rest =>
      cases e0 with
      | str s =>
        simp only [update_op_decode, decode_illegal_cond, decode_unknown_cond]
        cases hby : update_op_by (update_op_first_char s rest) with
        | none => exact ⟨rfl, rfl⟩
        | some meta =>
          dsimp only
          by_cases hlen :
              MpList.length (MpList.cons (MpVal.str s) rest) = meta.arg_count
          · rw [if_neg (fun hc => hc hlen), if_neg (fun hc => hc hlen)]
            have hdec : decide (MpList.length
                (MpList.cons (MpVal.str s) rest) ≠ meta.arg_count) = false := by
              simp [hlen]
            rw [hdec]
            rcases update_op_by_cases _ _ hby with h | h | h | h | h | h <;>
                subst h <;> dsimp only [op_set, op_insert, op_arith, op_bit,
                  op_splice, op_delete] at hlen ⊢
            · -- set
              cases rest with
              | nil => simp only [MpList.length] at hlen; omega
              | cons tgt args =>
                cases args with
                | nil => simp only [MpList.length] at hlen; omega
                | cons a1 args2 =>
                  cases args2 with
                  | cons a b => simp only [MpList.length] at hlen; omega
                  | nil =>
                    dsimp only
                    cases tgt with
                    | uint n =>
                      cases ht : update_op_decode_target ib dict
                          (update_op_first_char s (MpList.cons (MpVal.uint n) (MpList.cons a1 MpList.nil))) (MpVal.uint n) with
                      | error e1 =>
                        exact target_err_class _ _ _ _ _ (Or.inl ⟨n, rfl⟩) ht
                      | ok fn =>
                        exact ⟨rfl, rfl⟩
                    | int i =>
                      cases ht : update_op_decode_target ib dict
                          (update_op_first_char s (MpList.cons (MpVal.int i) (MpList.cons a1 MpList.nil))) (MpVal.int i) with
                      | error e1 =>
                        exact target_err_class _ _ _ _ _ (Or.inr (Or.inl ⟨i, rfl⟩)) ht
                      | ok fn =>
                        exact ⟨rfl, rfl⟩
                    | str s2 =>
                      cases ht : update_op_decode_target ib dict
                          (update_op_first_char s (MpList.cons (MpVal.str s2) (MpList.cons a1 MpList.nil))) (MpVal.str s2) with
                      | error e1 =>
                        exact target_err_class _ _ _ _ _ (Or.inr (Or.inr ⟨s2, rfl⟩)) ht
                      | ok fn =>
                        exact ⟨rfl, rfl⟩
                    | nil => exact ⟨rfl, rfl⟩
                    | boolean b => exact ⟨rfl, rfl⟩
                    | flt b2 => exact ⟨rfl, rfl⟩
                    | dbl b2 => exact ⟨rfl, rfl⟩
                    | arr l2 => exact ⟨rfl, rfl⟩
                    | map m2 => exact ⟨rfl, rfl⟩
            · -- arith
              cases rest with
              | nil => simp only [MpList.length] at hlen; omega
              | cons tgt args =>
                cases args with
                | nil => simp only [MpList.length] at hlen; omega
                | cons a1 args2 =>
                  cases args2 with
                  | cons a b => simp only [MpList.length] at hlen; omega
                  | nil =>
                    dsimp only
                    cases tgt with
                    | uint n =>
                      cases ht : update_op_decode_target ib dict
                          (update_op_first_char s (MpList.cons (MpVal.uint n) (MpList.cons a1 MpList.nil))) (MpVal.uint n) with
                      | error e1 =>
                        exact target_err_class _ _ _ _ _ (Or.inl ⟨n, rfl⟩) ht
                      | ok fn =>
                        dsimp only
                        cases hr : mp_read_arith_arg (update_op_first_char s (MpList.cons (MpVal.uint n) (MpList.cons a1 MpList.nil))) a1 with
                        | error e2 =>
                          exact mp_read_arith_arg_err_class _ _ _ hr
                        | ok x => exact ⟨rfl, rfl⟩
                    | int i =>
                      cases ht : update_op_decode_target ib dict
                          (update_op_first_char s (MpList.cons (MpVal.int i) (MpList.cons a1 MpList.nil))) (MpVal.int i) with
                      | error e1 =>
                        exact target_err_class _ _ _ _ _ (Or.inr (Or.inl ⟨i, rfl⟩)) ht
                      | ok fn =>
                        dsimp only
                        cases hr : mp_read_arith_arg (update_op_first_char s (MpList.cons (MpVal.int i) (MpList.cons a1 MpList.nil))) a1 with
                        | error e2 =>
                          exact mp_read_arith_arg_err_class _ _ _ hr
                        | ok x => exact ⟨rfl, rfl⟩
                    | str s2 =>
                      cases ht : update_op_decode_target ib dict
                          (update_op_first_char s (MpList.cons (MpVal.str s2) (MpList.cons a1 MpList.nil))) (MpVal.str s2) with
                      | error e1 =>
                        exact target_err_class _ _ _ _ _ (Or.inr (Or.inr ⟨s2, rfl⟩)) ht
                      | ok fn =>
                        dsimp only
                        cases hr : mp_read_arith_arg (update_op_first_char s (MpList.cons (MpVal.str s2) (MpList.cons a1 MpList.nil))) a1 with
                        | error e2 =>
                          exact mp_read_arith_arg_err_class _ _ _ hr
                        | ok x => exact ⟨rfl, rfl⟩
                    | nil => exact ⟨rfl, rfl⟩
                    | boolean b => exact ⟨rfl, rfl⟩
                    | flt b2 => exact ⟨rfl, rfl⟩
                    | dbl b2 => exact ⟨rfl, rfl⟩
                    | arr l2 => exact ⟨rfl, rfl⟩
                    | map m2 => exact ⟨rfl, rfl⟩
            · -- bit
              cases rest with
              | nil => simp only [MpList.length] at hlen; omega
              | cons tgt args =>
                cases args with
                | nil => simp only [MpList.length] at hlen; omega
                | cons a1 args2 =>
                  cases args2 with
                  | cons a b => simp only [MpList.length] at hlen; omega
                  | nil =>
                    dsimp only
                    cases tgt with
                    | uint n =>
                      cases ht : update_op_decode_target ib dict
                          (update_op_first_char s (MpList.cons (MpVal.uint n) (MpList.cons a1 MpList.nil))) (MpVal.uint n) with
                      | error e1 =>
                        exact target_err_class _ _ _ _ _ (Or.inl ⟨n, rfl⟩) ht
                      | ok fn =>
                        dsimp only
                        cases hr : mp_read_uint (update_op_first_char s (MpList.cons (MpVal.uint n) (MpList.cons a1 MpList.nil))) a1 with
                        | error e2 =>
                          exact mp_read_uint_err_class _ _ _ hr
                        | ok x => exact ⟨rfl, rfl⟩
                    | int i =>
                      cases ht : update_op_decode_target ib dict
                          (update_op_first_char s (MpList.cons (MpVal.int i) (MpList.cons a1 MpList.nil))) (MpVal.int i) with
                      | error e1 =>
                        exact target_err_class _ _ _ _ _ (Or.inr (Or.inl ⟨i, rfl⟩)) ht
                      | ok fn =>
                        dsimp only
                        cases hr : mp_read_uint (update_op_first_char s (MpList.cons (MpVal.int i) (MpList.cons a1 MpList.nil))) a1 with
                        | error e2 =>
                          exact mp_read_uint_err_class _ _ _ hr
                        | ok x => exact ⟨rfl, rfl⟩
                    | str s2 =>
                      cases ht : update_op_decode_target ib dict
                          (update_op_first_char s (MpList.cons (MpVal.str s2) (MpList.cons a1 MpList.nil))) (MpVal.str s2) with
                      | error e1 =>
                        exact target_err_class _ _ _ _ _ (Or.inr (Or.inr ⟨s2, rfl⟩)) ht
                      | ok fn =>
                        dsimp only
                        cases hr : mp_read_uint (update_op_first_char s (MpList.cons (MpVal.str s2) (MpList.cons a1 MpList.nil))) a1 with
                        | error e2 =>
                          exact mp_read_uint_err_class _ _ _ hr
                        | ok x => exact ⟨rfl, rfl⟩
                    | nil => exact ⟨rfl, rfl⟩
                    | boolean b => exact ⟨rfl, rfl⟩
                    | flt b2 => exact ⟨rfl, rfl⟩
                    | dbl b2 => exact ⟨rfl, rfl⟩
                    | arr l2 => exact ⟨rfl, rfl⟩
                    | map m2 => exact ⟨rfl, rfl⟩
            · -- splice
              cases rest with
              | nil => simp only [MpList.length] at hlen; omega
              | cons tgt args =>
                cases args with
                | nil => simp only [MpList.length] at hlen; omega
                | cons a1 args2 =>
                  cases args2 with
                  | nil => simp only [MpList.length] at hlen; omega
                  | cons a2 args3 =>
                    cases args3 with
                    | nil => simp only [MpList.length] at hlen; omega
                    | cons a3 args4 =>
                      cases args4 with
                      | cons a b => simp only [MpList.length] at hlen; omega
                      | nil =>
                        dsimp only
                        cases tgt with
                        | uint n =>
                          cases ht : update_op_decode_target ib dict
                              (update_op_first_char s (MpList.cons (MpVal.uint n) (MpList.cons a1 (MpList.cons a2 (MpList.cons a3 MpList.nil))))) (MpVal.uint n) with
                          | error e1 =>
                            exact target_err_class _ _ _ _ _ (Or.inl ⟨n, rfl⟩) ht
                          | ok fn =>
                            dsimp only
                            cases hr : read_arg_splice (update_op_first_char s (MpList.cons (MpVal.uint n) (MpList.cons a1 (MpList.cons a2 (MpList.cons a3 MpList.nil))))) a1 a2 a3 with
                            | error e2 =>
                              exact read_arg_splice_err_class _ _ _ _ _ hr
                            | ok x => exact ⟨rfl, rfl⟩
                        | int i =>
                          cases ht : update_op_decode_target ib dict
                              (update_op_first_char s (MpList.cons (MpVal.int i) (MpList.cons a1 (MpList.cons a2 (MpList.cons a3 MpList.nil))))) (MpVal.int i) with
                          | error e1 =>
                            exact target_err_class _ _ _ _ _ (Or.inr (Or.inl ⟨i, rfl⟩)) ht
                          | ok fn =>
                            dsimp only
                            cases hr : read_arg_splice (update_op_first_char s (MpList.cons (MpVal.int i) (MpList.cons a1 (MpList.cons a2 (MpList.cons a3 MpList.nil))))) a1 a2 a3 with
                            | error e2 =>
                              exact read_arg_splice_err_class _ _ _ _ _ hr
                            | ok x => exact ⟨rfl, rfl⟩
                        | str s2 =>
                          cases ht : update_op_decode_target ib dict
                              (update_op_first_char s (MpList.cons (MpVal.str s2) (MpList.cons a1 (MpList.cons a2 (MpList.cons a3 MpList.nil))))) (MpVal.str s2) with
                          | error e1 =>
                            exact target_err_class _ _ _ _ _ (Or.inr (Or.inr ⟨s2, rfl⟩)) ht
                          | ok fn =>
                            dsimp only
                            cases hr : read_arg_splice (update_op_first_char s (MpList.cons (MpVal.str s2) (MpList.cons a1 (MpList.cons a2 (MpList.cons a3 MpList.nil))))) a1 a2 a3 with
                            | error e2 =>
                              exact read_arg_splice_err_class _ _ _ _ _ hr
                            | ok x => exact ⟨rfl, rfl⟩
                        | nil => exact ⟨rfl, rfl⟩
                        | boolean b => exact ⟨rfl, rfl⟩
                        | flt b2 => exact ⟨rfl, rfl⟩
                        | dbl b2 => exact ⟨rfl, rfl⟩
                        | arr l2 => exact ⟨rfl, rfl⟩
                        | map m2 => exact ⟨rfl, rfl⟩
            · -- delete
              cases rest with
              | nil => simp only [MpList.length] at hlen; omega
              | cons tgt args =>
                cases args with
                | nil => simp only [MpList.length] at hlen; omega
                | cons a1 args2 =>
                  cases args2 with
                  | cons a b => simp only [MpList.length] at hlen; omega
                  | nil =>
                    dsimp only
                    cases tgt with
                    | uint n =>
                      cases ht : update_op_decode_target ib dict
                          (update_op_first_char s (MpList.cons (MpVal.uint n) (MpList.cons a1 MpList.nil))) (MpVal.uint n) with
                      | error e1 =>
                        exact target_err_class _ _ _ _ _ (Or.inl ⟨n, rfl⟩) ht
                      | ok fn =>
                        dsimp only
                        cases hr : read_arg_delete (update_op_first_char s (MpList.cons (MpVal.uint n) (MpList.cons a1 MpList.nil))) a1 with
                        | error e2 =>
                          exact read_arg_delete_err_class _ _ _ hr
                        | ok x => exact ⟨rfl, rfl⟩
                    | int i =>
                      cases ht : update_op_decode_target ib dict
                          (update_op_first_char s (MpList.cons (MpVal.int i) (MpList.cons a1 MpList.nil))) (MpVal.int i) with
                      | error e1 =>
                        exact target_err_class _ _ _ _ _ (Or.inr (Or.inl ⟨i, rfl⟩)) ht
                      | ok fn =>
                        dsimp only
                        cases hr : read_arg_delete (update_op_first_char s (MpList.cons (MpVal.int i) (MpList.cons a1 MpList.nil))) a1 with
                        | error e2 =>
                          exact read_arg_delete_err_class _ _ _ hr
                        | ok x => exact ⟨rfl, rfl⟩
                    | str s2 =>
                      cases ht : update_op_decode_target ib dict
                          (update_op_first_char s (MpList.cons (MpVal.str s2) (MpList.cons a1 MpList.nil))) (MpVal.str s2) with
                      | error e1 =>
                        exact target_err_class _ _ _ _ _ (Or.inr (Or.inr ⟨s2, rfl⟩)) ht
                      | ok fn =>
                        dsimp only
                        cases hr : read_arg_delete (update_op_first_char s (MpList.cons (MpVal.str s2) (MpList.cons a1 MpList.nil))) a1 with
                        | error e2 =>
                          exact read_arg_delete_err_class _ _ _ hr
                        | ok x => exact ⟨rfl, rfl⟩
                    | nil => exact ⟨rfl, rfl⟩
                    | boolean b => exact ⟨rfl, rfl⟩
                    | flt b2 => exact ⟨rfl, rfl⟩
                    | dbl b2 => exact ⟨rfl, rfl⟩
                    | arr l2 => exact ⟨rfl, rfl⟩
                    | map m2 => exact ⟨rfl, rfl⟩
            · -- insert
              cases rest with
              | nil => simp only [MpList.length] at hlen; omega
              | cons tgt args =>
                cases args with
                | nil => simp only [MpList.length] at hlen; omega
                | cons a1 args2 =>
                  cases args2 with
                  | cons a b => simp only [MpList.length] at hlen; omega
                  | nil =>
                    dsimp only
                    cases tgt with
                    | uint n =>
                      cases ht : update_op_decode_target ib dict
                          (update_op_first_char s (MpList.cons (MpVal.uint n) (MpList.cons a1 MpList.nil))) (MpVal.uint n) with
                      | error e1 =>
                        exact target_err_class _ _ _ _ _ (Or.inl ⟨n, rfl⟩) ht
                      | ok fn =>
                        exact ⟨rfl, rfl⟩
                    | int i =>
                      cases ht : update_op_decode_target ib dict
                          (update_op_first_char s (MpList.cons (MpVal.int i) (MpList.cons a1 MpList.nil))) (MpVal.int i) with
                      | error e1 =>
                        exact target_err_class _ _ _ _ _ (Or.inr (Or.inl ⟨i, rfl⟩)) ht
                      | ok fn =>
                        exact ⟨rfl, rfl⟩
                    | str s2 =>
                      cases ht : update_op_decode_target ib dict
                          (update_op_first_char s (MpList.cons (MpVal.str s2) (MpList.cons a1 MpList.nil))) (MpVal.str s2) with
                      | error e1 =>
                        exact target_err_class _ _ _ _ _ (Or.inr (Or.inr ⟨s2, rfl⟩)) ht
                      | ok fn =>
                        exact ⟨rfl, rfl⟩
                    | nil => exact ⟨rfl, rfl⟩
                    | boolean b => exact ⟨rfl, rfl⟩
                    | flt b2 => exact ⟨rfl, rfl⟩
                    | dbl b2 => exact ⟨rfl, rfl⟩
                    | arr l2 => exact ⟨rfl, rfl⟩
                    | map m2 => exact ⟨rfl, rfl⟩
          · rw [if_pos hlen, if_pos hlen]
            have hdec : decide (MpList.length
                (MpList.cons (MpVal.str s) rest) ≠ meta.arg_count) = true := by
              simp [hlen]
            rw [hdec]
            exact ⟨rfl, rfl⟩
      | nil => exact ⟨rfl, rfl⟩
      | boolean b => exact ⟨rfl, rfl⟩
      | uint n => exact ⟨rfl, rfl⟩
      | int i => exact ⟨rfl, rfl⟩
      | flt b => exact ⟨rfl, rfl⟩
      | dbl b => exact ⟨rfl, rfl⟩
      | arr l => exact ⟨rfl, rfl⟩
      | map m => exact ⟨rfl, rfl⟩
  | nil => exact ⟨rfl, rfl⟩
  | boolean b => exact ⟨rfl, rfl⟩
  | uint n => exact ⟨rfl, rfl⟩
  | int i => exact ⟨rfl, rfl⟩
  | flt b => exact ⟨rfl, rfl⟩
  | dbl b => exact ⟨rfl, rfl⟩
  | str s => exact ⟨rfl, rfl⟩
  | map m => exact ⟨rfl, rfl⟩

/-- Counterexample for C6: with a dictionary mapping only the name a
to field 0 and a record whose field 0 is a map holding b, the string
a.b resolves as a path through the read-side resolver
(tuple_field_raw_by_full_path descends into a then b and finds the
value 1), yet an update operation targeting the same string a.b fails
with NoSuchFieldName at decode time - the operation decoder never
falls back to path resolution. -/
theorem string_target_no_path_fallback_cex :
    tuple_field_raw_by_full_path
        (fun s => if s = strBytes "a" then some 0 else none)
        [.map (.cons (.str (strBytes "b")) (.uint 1) .nil)]
        (strBytes "a.b") = some (.uint 1) ∧
    update_op_decode 1
        (fun s => if s = strBytes "a" then some 0 else none)
        (.arr (.cons (.str (strBytes "=")) (.cons (.str (strBytes "a.b"))
          (.cons (.uint 9) .nil)))) =
      .error (.noSuchFieldName (strBytes "a.b")) := ⟨rfl, rfl⟩

/-- C6 (amended): string targets of update operations resolve only
through the field dictionary: a hit uses that top-level field number
and a miss fails with NoSuchFieldName, with no path descent; the
dictionary-first behaviour (a field literally named like a path is
preferred) holds both for the operation decoder and for the read-side
resolver tuple_field_raw_by_full_path, which is the function that,
on a dictionary miss, interprets the string as a JSON path and
descends. -/
theorem string_target_resolution (dict : List Nat → Option Nat)
    (s : List Nat) (v : MpVal) :
    (∀ fn : Nat, dict s = some fn →
      update_op_decode 1 dict
          (.arr (.cons (.str (strBytes "=")) (.cons (.str s)
            (.cons v .nil)))) =
        .ok ⟨'='.toNat, .set, fn, .set v⟩) ∧
    (dict s = none →
      update_op_decode 1 dict
          (.arr (.cons (.str (strBytes "=")) (.cons (.str s)
            (.cons v .nil)))) =
        .error (.noSuchFieldName s)) ∧
    (∀ (fields : List MpVal) (fn : Nat), dict s = some fn →
      tuple_field_raw_by_full_path dict fields s = tuple_field_raw fields fn) := by
  refine ⟨?_, ?_, ?_⟩
  · intro fn h
    rw [update_op_decode_set_eq]
    have ht : update_op_decode_target 1 dict '='.toNat (.str s) = .ok fn := by
      simp only [update_op_decode_target]
      rw [h]
    rw [ht]
  · intro h
    rw [update_op_decode_set_eq]
    have ht : update_op_decode_target 1 dict '='.toNat (.str s) =
        .error (.noSuchFieldName s) := by
      simp only [update_op_decode_target]
      rw [h]
    rw [ht]
  · intro fields fn h
    simp only [tuple_field_raw_by_full_path]
    rw [h]

/-- Witness for C6: a dictionary hit on the name a resolves to the
mapped top-level field. -/
theorem string_target_resolution_witness :
    tuple_field_raw_by_full_path
        (fun s => if s = strBytes "a" then some 3 else none)
        [] (strBytes "a") =
      tuple_field_raw [] 3 :=
  (string_target_resolution
      (fun s => if s = strBytes "a" then some 3 else none)
      (strBytes "a") .nil).2.2 [] 3 (by rfl)

/-- The arithmetic writer always writes exactly update_arith_sizeof
bytes. -/
theorem store_op_arith_length (a : OpArithArg) :
    (store_op_arith a).length = update_arith_sizeof a := by
  cases a with
  | int v =>
    simp only [store_op_arith, update_arith_sizeof]
    split_ifs
    · exact mp_encode_uint_length _
    · exact mp_encode_int_length _
  | dbl b => simp [store_op_arith, update_arith_sizeof, beBytes_length]
  | flt b => simp [store_op_arith, update_arith_sizeof, beBytes_length]

/-- A well-formed scalar operation writes exactly its new_field_len
bytes. -/
theorem scalar_op_store_length (data : List Nat) (op : ScalarOp)
    (h : scalar_op_wf data op = true) :
    (scalar_op_store op data).length = scalar_op_new_field_len op := by
  cases op with
  | set v => rfl
  | arith a => exact store_op_arith_length a
  | bit v => exact mp_encode_uint_length v
  | splice a =>
    simp only [scalar_op_wf] at h
    simp only [scalar_op_store, scalar_op_new_field_len]
    cases hd : mp_decode_strl data with
    | none => rw [hd] at h; simp at h
    | some p =>
      rw [hd] at h
      obtain ⟨len, payload⟩ := p
      simp only [Bool.and_eq_true, decide_eq_true_eq] at h
      obtain ⟨⟨⟨⟨⟨h1, h2⟩, h3⟩, h4⟩, h5⟩, h6⟩ := h
      simp only [store_op_splice, mp_sizeof_str, List.length_append,
        List.length_take, List.length_drop, mp_encode_strl_length]
      omega

mutual

/-- First serializer pass equals the byte count of the second pass on
any well-formed node. -/
theorem update_field_store_length :
    ∀ (f : UpdateField), update_field_wf f = true →
      (update_field_store f).length = update_field_sizeof f
  | .nop data, _ => rfl
  | .scalar data op, h => scalar_op_store_length data op h
  | .array cs, h => by
    simp only [update_field_store, update_field_sizeof, List.length_append,
      mp_encode_array_length]
    rw [update_array_store_children_length cs h]

/-- Children of an ARRAY node store exactly the sum of their sizes. -/
theorem update_array_store_children_length :
    ∀ (cs : UpdateFieldList), update_field_wf_children cs = true →
      (update_array_store_children cs).length =
        update_array_sizeof_children cs
  | .nil, _ => rfl
  | .cons f tl, h => by
    rw [update_field_wf_children, Bool.and_eq_true] at h
    simp only [update_array_store_children, update_array_sizeof_children,
      List.length_append]
    rw [update_field_store_length f h.1,
      update_array_store_children_length tl h.2]

end

/-- C8: serialization is two-pass and size-exact.  For every
well-formed update tree node the size computed by the first pass
equals the number of bytes the second pass writes; a NOP node's size
is its original byte size and storing it copies the original bytes
verbatim; a SCALAR node's size is its operation's new_field_len; an
ARRAY node's size is the sum of its children's sizes plus the new
array header size. -/
theorem serializer_size_exact (f : UpdateField)
    (h : update_field_wf f = true) :
    (update_field_store f).length = update_field_sizeof f ∧
    (∀ data : List Nat, update_field_sizeof (.nop data) = data.length ∧
      update_field_store (.nop data) = data) ∧
    (∀ (data : List Nat) (op : ScalarOp),
      update_field_sizeof (.scalar data op) = scalar_op_new_field_len op) ∧
    (∀ cs : UpdateFieldList, update_field_sizeof (.array cs) =
      mp_sizeof_array cs.length + update_array_sizeof_children cs) :=
  ⟨update_field_store_length f h,
   fun _ => ⟨rfl, rfl⟩, fun _ _ => rfl, fun _ => rfl⟩

/-- Witness for C8: a two-child tree (an untouched nil field and a
scalar bitwise result) stores exactly as many bytes as the first pass
computes. -/
theorem serializer_size_exact_witness :
    (update_field_store (.array (.cons (.nop [0xc0])
        (.cons (.scalar [7] (.bit 300)) .nil)))).length =
      update_field_sizeof (.array (.cons (.nop [0xc0])
        (.cons (.scalar [7] (.bit 300)) .nil))) ∧
    (∀ data : List Nat,
      update_field_sizeof (.nop data) = data.length ∧
      update_field_store (.nop data) = data) ∧
    (∀ (data : List Nat) (op : ScalarOp),
      update_field_sizeof (.scalar data op) = scalar_op_new_field_len op) ∧
    (∀ cs : UpdateFieldList, update_field_sizeof (.array cs) =
      mp_sizeof_array cs.length + update_array_sizeof_children cs) :=
  serializer_size_exact
    (.array (.cons (.nop [0xc0]) (.cons (.scalar [7] (.bit 300)) .nil)))
    (by rfl)
